import Mathlib

/-!
# Verification of the `fetchies` request-orchestration pipeline

A shallow embedding of the repository's core (`src/lib/fetches.ts`,
`src/lib/cache.ts`) in Lean 4, together with theorems settling the frozen
claims about the natural-language specification.

JavaScript machine integers of the relevant code paths are all small
non-negative counters, sizes and millisecond durations, embedded as `Nat`;
fallible code is embedded with `Except`/`Option`; the instance state that the
class methods mutate is passed explicitly.
-/

namespace Fetchies

/-! ## JavaScript request bodies and `getCacheKey`

`getCacheKey` (src/lib/fetches.ts:512-518) computes
`` `${method}:${url}:${data ? JSON.stringify(data) : ''}` ``.
The request body (`data`) is an arbitrary JavaScript value; the code only
observes its truthiness and its `JSON.stringify` serialization, so the
embedding models a body as one of the primitive shapes together with an
object/array shape carrying its serialization. -/

/-- A JavaScript value used as a request body. `obj s` stands for an
object/array whose `JSON.stringify` serialization is `s`. -/
inductive JsData where
  | str (s : String)
  | num (n : Int)
  | bool (b : Bool)
  | obj (s : String)
deriving DecidableEq, Repr

/-- JavaScript truthiness of a body value (`data ? _ : _`): the empty string,
`0` and `false` are falsy; objects and arrays are always truthy. -/
def JsData.truthy : JsData → Bool
  | .str s => s ≠ ""
  | .num n => n ≠ 0
  | .bool b => b
  | .obj _ => true

/-- The `JSON.stringify` serialization of a body value. -/
def JsData.stringify : JsData → String
  | .str s => "\"" ++ s ++ "\""
  | .num n => toString n
  | .bool b => if b then "true" else "false"
  | .obj s => s

/-- Embedding of `Fetches.getCacheKey` (src/lib/fetches.ts:512-518):
`` `${method}:${url}:${data ? JSON.stringify(data) : ''}` `` with `data`
optional (`undefined` is falsy). -/
def getCacheKey (method url : String) (data : Option JsData) : String :=
  method ++ ":" ++ url ++ ":" ++
    (match data with
     | some d => if d.truthy then d.stringify else ""
     | none => "")

/-! ## The error taxonomy and `normalizeError`

Modelled from the spec: the error classes of `src/lib/errors.ts` are not under
`src/` (only their importers are). The spec's §7 taxonomy and the
`instanceof` dispatch in `src/lib/fetches.ts` determine what the orchestrator
needs of them: four distinguishable `Error` subclasses
(`FetchesTimeoutError`, `FetchesNetworkError`, `FetchesValidationError`,
`FetchesResponseError`), plus the runtime's `DOMException` (which is itself an
`Error`) and plain `Error` values. They are embedded as one inductive of
JavaScript error values. -/

/-- A JavaScript error value as observed by the orchestrator: the four
`Fetches*Error` classes, a `DOMException` (carrying its `name` and `message`),
or a plain `Error`. -/
inductive JsError where
  | fetchesTimeout (msg : String)
  | fetchesNetwork (msg : String)
  | fetchesValidation (msg : String)
  | fetchesResponse (status : Nat) (msg : String)
  | domException (name msg : String)
  | plainError (msg : String)
deriving DecidableEq, Repr

/-- True exactly on the four `Fetches*Error` classes of the taxonomy. -/
def JsError.isFetchesError : JsError → Bool
  | .fetchesTimeout _ => true
  | .fetchesNetwork _ => true
  | .fetchesValidation _ => true
  | .fetchesResponse _ _ => true
  | _ => false

/-- Embedding of `Fetches.normalizeError` (src/lib/fetches.ts:520-535): the
four `Fetches*Error` classes pass through; any other `Error` instance
(including `DOMException`) is wrapped as `FetchesNetworkError(error.message)`.
(The final `new Error('Unknown error occurred')` branch is for thrown
non-`Error` values, which no modelled code path produces.) -/
def normalizeError : JsError → JsError
  | .fetchesTimeout m => .fetchesTimeout m
  | .fetchesNetwork m => .fetchesNetwork m
  | .fetchesValidation m => .fetchesValidation m
  | .fetchesResponse s m => .fetchesResponse s m
  | .domException _ m => .fetchesNetwork m
  | .plainError m => .fetchesNetwork m

/-! ## Retry configuration, `shouldRetry` and `delay` -/

/-- The `backoff` field of `RetryConfig` (src/lib/types.ts). -/
inductive Backoff where
  | linear
  | exponential
deriving DecidableEq, Repr

/-- Embedding of `RetryConfig` (src/lib/types.ts): `attempts`, `backoff`,
`initialDelay`, optional `maxDelay`, optional custom `shouldRetry` predicate. -/
structure RetryConfigM where
  attempts : Nat
  backoff : Backoff
  initialDelay : Nat
  maxDelay : Option Nat
  pred : Option (JsError → Bool)

/-- The `maxAttempts` budget as resolved by `executeRequest`
(src/lib/fetches.ts:201): `this.retryConfig?.attempts ?? 1`. -/
def maxAttemptsOf (rc : Option RetryConfigM) : Nat :=
  match rc with
  | some r => r.attempts
  | none => 1

/-- Default retryability (src/lib/fetches.ts:444-447):
`error instanceof FetchesNetworkError || error instanceof FetchesTimeoutError`. -/
def isNetworkOrTimeout : JsError → Bool
  | .fetchesNetwork _ => true
  | .fetchesTimeout _ => true
  | _ => false

/-- Embedding of `Fetches.shouldRetry` (src/lib/fetches.ts:436-450): never
retry once `attempt >= maxAttempts - 1`; otherwise use the configured custom
predicate, falling back to the network/timeout classification. -/
def shouldRetry (rc : Option RetryConfigM) (error : JsError)
    (attempt maxAttempts : Nat) : Bool :=
  if attempt ≥ maxAttempts - 1 then false
  else
    match rc with
    | none => isNetworkOrTimeout error
    | some r =>
      match r.pred with
      | none => isNetworkOrTimeout error
      | some p => p error

/-- The duration computed by `Fetches.delay` (src/lib/fetches.ts:452-468):
`initialDelay * 2 ** attempt` for exponential backoff, otherwise
`initialDelay * (attempt + 1)`, clamped with `Math.min` only when `maxDelay`
is truthy (`if (maxDelay)` — so a configured `maxDelay` of `0` does not
clamp). -/
def delayFor (rc : RetryConfigM) (attempt : Nat) : Nat :=
  let d :=
    match rc.backoff with
    | .exponential => rc.initialDelay * 2 ^ attempt
    | .linear => rc.initialDelay * (attempt + 1)
  match rc.maxDelay with
  | some m => if m = 0 then d else min d m
  | none => d

/-! ## The response cache (`src/lib/cache.ts`)

`RequestCache` holds a JavaScript `Map` (embedded as an association list in
insertion order — a `Map` never holds two entries with the same key, and
`set` on an existing key updates it in place) together with the recency list
`keyOrder` (front = least recently used). The wall clock (`Date.now()`) is
passed explicitly as `now : Nat`.  JavaScript's
`now - timestamp > ttl` agrees with truncated `Nat` subtraction for all
`ttl ≥ 0`: whenever `now < timestamp` both sides are `false`. -/

/-- Embedding of `CacheEntry` (src/lib/types.ts): payload, creation
timestamp, TTL. -/
structure CacheEntryM (α : Type) where
  data : α
  timestamp : Nat
  ttl : Nat
deriving DecidableEq, Repr

/-- JavaScript `Map.get`: the value stored under the first (and, for a `Map`, only)
occurrence of a key. -/
def mapLookup (k : String) : List (String × CacheEntryM α) → Option (CacheEntryM α)
  | [] => none
  | (k', e) :: rest => if k' = k then some e else mapLookup k rest

/-- JavaScript `Map.has`. -/
def mapHas (k : String) (m : List (String × CacheEntryM α)) : Bool :=
  (mapLookup k m).isSome

/-- JavaScript `Map.set`: update in place if the key is present, otherwise append. -/
def mapInsert (k : String) (e : CacheEntryM α) :
    List (String × CacheEntryM α) → List (String × CacheEntryM α)
  | [] => [(k, e)]
  | (k', e') :: rest =>
    if k' = k then (k, e) :: rest else (k', e') :: mapInsert k e rest

/-- JavaScript `Map.delete`: remove the (first) entry with the given key. -/
def mapDelete (k : String) :
    List (String × CacheEntryM α) → List (String × CacheEntryM α)
  | [] => []
  | (k', e') :: rest => if k' = k then rest else (k', e') :: mapDelete k rest

/-- The step `keyOrder.splice(keyOrder.indexOf(key), 1)` guarded by `indexOf > -1`:
remove the first occurrence of the key, if present. -/
def orderErase (k : String) : List String → List String
  | [] => []
  | k' :: rest => if k' = k then rest else k' :: orderErase k rest

/-- Embedding of `RequestCache` (src/lib/cache.ts): the entry map, the
configured capacity, and the recency order (front = oldest). -/
structure RequestCacheM (α : Type) where
  cache : List (String × CacheEntryM α)
  maxSize : Nat
  keyOrder : List String
deriving DecidableEq, Repr

/-- The constructor `new RequestCache(maxSize)` (src/lib/cache.ts:8-12). -/
def RequestCacheM.empty (maxSize : Nat) : RequestCacheM α :=
  ⟨[], maxSize, []⟩

namespace RequestCacheM

/-- Embedding of `RequestCache.isExpired` (src/lib/cache.ts:81-83):
`Date.now() - entry.timestamp > entry.ttl`. -/
def isExpired (now : Nat) (e : CacheEntryM α) : Bool :=
  now - e.timestamp > e.ttl

/-- The private `RequestCache.delete` (src/lib/cache.ts:85-91). -/
def del (c : RequestCacheM α) (k : String) : RequestCacheM α :=
  { c with cache := mapDelete k c.cache, keyOrder := orderErase k c.keyOrder }

/-- The iteration of `removeExpiredEntries` over the entry keys: each visited
key whose current entry is expired is deleted. -/
def sweepKeys (now : Nat) : List String → RequestCacheM α → RequestCacheM α
  | [], c => c
  | k :: rest, c =>
    match mapLookup k c.cache with
    | some e => if isExpired now e then sweepKeys now rest (c.del k)
                else sweepKeys now rest c
    | none => sweepKeys now rest c

/-- Embedding of `RequestCache.removeExpiredEntries` (src/lib/cache.ts:93-99): walk the
map's entries (insertion order) and delete every expired one. -/
def removeExpiredEntries (now : Nat) (c : RequestCacheM α) : RequestCacheM α :=
  sweepKeys now (c.cache.map Prod.fst) c

/-- Embedding of `RequestCache.set` (src/lib/cache.ts:14-38): sweep expired entries; if
the key already exists clear its recency position; if at capacity and the key
is new, evict `keyOrder[0]` — guarded by the truthiness of `oldestKey`, so an
empty list (and an oldest key that is the empty string) skips eviction; store
the entry and mark it most recently used. -/
def set (c : RequestCacheM α) (k : String) (v : α) (ttl : Nat) (now : Nat) :
    RequestCacheM α :=
  let c1 := removeExpiredEntries now c
  let c2 := if mapHas k c1.cache then { c1 with keyOrder := orderErase k c1.keyOrder }
            else c1
  let c3 :=
    if c2.cache.length ≥ c2.maxSize ∧ ¬ mapHas k c2.cache then
      match c2.keyOrder with
      | [] => c2
      | oldest :: rest =>
        if oldest = "" then c2
        else { c2 with cache := mapDelete oldest c2.cache, keyOrder := rest }
    else c2
  { c3 with cache := mapInsert k ⟨v, now, ttl⟩ c3.cache,
            keyOrder := c3.keyOrder ++ [k] }

/-- Embedding of `RequestCache.get` (src/lib/cache.ts:40-58): a missing key is a miss; an
expired entry is deleted and is a miss; otherwise the key is promoted to most
recently used and the payload returned. Returns the result together with the
mutated store. -/
def get (c : RequestCacheM α) (k : String) (now : Nat) :
    Option α × RequestCacheM α :=
  match mapLookup k c.cache with
  | none => (none, c)
  | some e =>
    if isExpired now e then (none, c.del k)
    else (some e.data,
      { c with keyOrder := orderErase k c.keyOrder ++ [k] })

/-- Embedding of `RequestCache.clear` (src/lib/cache.ts:60-63). -/
def clear (c : RequestCacheM α) : RequestCacheM α :=
  { c with cache := [], keyOrder := [] }

/-- Embedding of `RequestCache.invalidate` (src/lib/cache.ts:65-79) with the pattern's
match function abstracted as a predicate: collect the matching keys from
`keyOrder`, then delete each. -/
def invalidate (c : RequestCacheM α) (p : String → Bool) : RequestCacheM α :=
  (c.keyOrder.filter p).foldl (fun acc k => acc.del k) c

/-- Embedding of `RequestCache.size` (src/lib/cache.ts:105-107): `this.cache.size`. -/
def size (c : RequestCacheM α) : Nat :=
  c.cache.length

/-- Embedding of `RequestCache.has` (src/lib/cache.ts:101-103). -/
def has (c : RequestCacheM α) (k : String) (now : Nat) : Bool :=
  mapHas k c.cache && match mapLookup k c.cache with
                      | some e => ! isExpired now e
                      | none => true

end RequestCacheM

/-! ## Request configuration and envelopes

`RequestConfig` (src/lib/types.ts) restricted to the fields the orchestrator
core reads. `params` is omitted (URL/query construction is out of scope per
spec §1; `buildUrl` is embedded for the params-free path), and the
`validatorSchema` a config carries is a function value, passed alongside the
config as `vschema` to keep configuration equality decidable. -/

/-- The per-call request configuration fields read by the orchestrator. -/
structure RequestConfigM where
  url : Option String
  method : Option String
  baseURL : Option String
  data : Option JsData
  timeout : Option Nat
  validateResponse : Option Bool
  requestId : Option String
  skipCache : Bool
  cacheTime : Option Nat
deriving DecidableEq, Repr

/-- A settled transport `Response` with its body already decoded
per content-type (decoding is delegated, spec §1). -/
structure RawResponse (α : Type) where
  status : Nat
  statusText : String
  headers : List (String × String)
  data : α
deriving DecidableEq, Repr

/-- Embedding of `FetchesResponse` (src/lib/types.ts): decoded body, status,
status text, headers, echo of the resolved config. -/
structure FetchesResponseM (α : Type) where
  data : α
  status : Nat
  statusText : String
  headers : List (String × String)
  config : RequestConfigM
deriving DecidableEq, Repr

/-! ## Interceptor chains (src/lib/fetches.ts:58-89, 253-291) -/

/-- A request-interceptor slot: optional fulfillment hook (which may throw),
and whether a rejection hook is present (the rejection hook runs for side
effects only and never alters the propagated error, so only its presence is
modelled). Ejecting stores `{}`: both hooks absent. -/
structure ReqSlot where
  onFulfilled : Option (RequestConfigM → Except JsError RequestConfigM)
  onRejected : Bool

/-- A response-interceptor slot, mirroring `ReqSlot`. -/
structure RespSlot (α : Type) where
  onFulfilled : Option (FetchesResponseM α → Except JsError (FetchesResponseM α))
  onRejected : Bool

/-- Embedding of `interceptors.request.use` (src/lib/fetches.ts:60-67): append a slot and
return its index as the id. -/
def interceptorUse (slots : List ReqSlot) (s : ReqSlot) : Nat × List ReqSlot :=
  (slots.length, slots ++ [s])

/-- Embedding of `interceptors.request.eject` (src/lib/fetches.ts:68-72): in-bounds ids
have their slot overwritten with `{}` (no hooks); the array never shrinks. -/
def interceptorEject (slots : List ReqSlot) (id : Nat) : List ReqSlot :=
  if id < slots.length then slots.set id ⟨none, false⟩ else slots

/-- Embedding of `Fetches.applyRequestInterceptors` (src/lib/fetches.ts:253-271): thread
the config through each present fulfillment hook in registration order; a
hook's error propagates unchanged (after the side-effect-only rejection
hook). -/
def applyRequestInterceptors (slots : List ReqSlot) (c : RequestConfigM) :
    Except JsError RequestConfigM :=
  match slots with
  | [] => .ok c
  | s :: rest =>
    match s.onFulfilled with
    | none => applyRequestInterceptors rest c
    | some f =>
      match f c with
      | .ok c' => applyRequestInterceptors rest c'
      | .error e => .error e

/-- Embedding of `Fetches.applyResponseInterceptors` (src/lib/fetches.ts:273-291). -/
def applyResponseInterceptors (slots : List (RespSlot α)) (r : FetchesResponseM α) :
    Except JsError (FetchesResponseM α) :=
  match slots with
  | [] => .ok r
  | s :: rest =>
    match s.onFulfilled with
    | none => applyResponseInterceptors rest r
    | some f =>
      match f r with
      | .ok r' => applyResponseInterceptors rest r'
      | .error e => .error e

/-! ## The transport call raced against the timeout timer
(src/lib/fetches.ts:351-382) -/

/-- The state of an `AbortController`/its signal: whether it is aborted, and
the `name`/`message` of the abort reason. -/
structure ControllerState where
  aborted : Bool
  reasonName : String
  reasonMsg : String
deriving DecidableEq, Repr

/-- The state of `new AbortController()`. -/
def newController : ControllerState := ⟨false, "", ""⟩

/-- Effect of `controller.abort()` with no argument (src/lib/fetches.ts:129, 135): the
signal aborts with the runtime's default `AbortError` reason. -/
def abortCtrl (c : ControllerState) : ControllerState :=
  { c with aborted := true, reasonName := "AbortError",
           reasonMsg := "This operation was aborted" }

/-- Embedding of the `setTimeout` callback inside `performRequest`
(src/lib/fetches.ts:356-364). If the request's signal is not yet aborted, the
callback creates a **fresh** `AbortController`, aborts that fresh controller
with `DOMException('Timeout', 'TimeoutError')`, and dispatches a synthetic
`abort` event on the request's signal — which fires listeners but neither
sets the signal's `aborted` flag nor aborts the `fetch` tied to it. Returns
the request signal (unchanged) and the fresh controller, if one was made. -/
def timeoutCallback (signal : ControllerState) :
    ControllerState × Option ControllerState :=
  if !signal.aborted then
    (signal, some ⟨true, "TimeoutError", "Timeout"⟩)
  else (signal, none)

/-- One transport (`fetch`) call: after `after` milliseconds it settles with
`result` — a decoded response, or a rejection (e.g. a
`DOMException('…', 'AbortError')` when the signal driving it was aborted by
`cancelRequest`, or a `FetchesNetworkError`-style failure). -/
structure TransportCall (α : Type) where
  after : Nat
  result : Except JsError (RawResponse α)

/-- The `catch` clause of `performRequest` (src/lib/fetches.ts:371-381): a
`DOMException` named `AbortError` whose message is `'Timeout'` becomes a
`FetchesTimeoutError`; every other error is rethrown unchanged. -/
def performRequestCatch (timeout : Nat) : JsError → JsError
  | .domException n m =>
    if n = "AbortError" ∧ m = "Timeout" then
      .fetchesTimeout ("Request timed out after " ++ toString timeout ++ "ms")
    else .domException n m
  | e => e

/-- Embedding of `Fetches.performRequest` (src/lib/fetches.ts:351-382): the
transport call raced against a `setTimeout` timer of `timeout` ms.
If the signal is already aborted, `fetch` rejects promptly with an
`AbortError` `DOMException`. Otherwise, if the call settles within the
timeout, the timer is cleared and the call's own result stands. If the timer
fires first, its callback runs — but it leaves the request's signal unaborted
(see `timeoutCallback`), so the `fetch` continues and the call's own result
still stands. Rejections pass through the `catch` clause. -/
def performRequest (signal : ControllerState) (timeout : Nat)
    (t : TransportCall α) : Except JsError (RawResponse α) :=
  if signal.aborted then
    .error (performRequestCatch timeout
      (.domException signal.reasonName signal.reasonMsg))
  else if t.after ≤ timeout then
    match t.result with
    | .ok r => .ok r
    | .error e => .error (performRequestCatch timeout e)
  else
    let signalAfterTimer := (timeoutCallback signal).1
    if signalAfterTimer.aborted then
      .error (performRequestCatch timeout
        (.domException signalAfterTimer.reasonName signalAfterTimer.reasonMsg))
    else
      match t.result with
      | .ok r => .ok r
      | .error e => .error (performRequestCatch timeout e)

/-! ## Response processing (src/lib/fetches.ts:384-434) -/

/-- Embedding of `Fetches.processResponse`: apply the response transformers
in order to the decoded body, build the envelope, fail with
`FetchesResponseError` when the status is not `ok` (`200 ≤ status < 300`),
then — if a schema is configured and validation enabled — validate and
replace the payload, translating any validator failure into
`FetchesValidationError`. -/
def processResponse (validateResponseDefault : Bool)
    (respTransformers : List (RawResponse α → α → α))
    (vschema : Option (α → Except String α)) (cfg : RequestConfigM)
    (r : RawResponse α) : Except JsError (FetchesResponseM α) :=
  let data := respTransformers.foldl (fun d f => f r d) r.data
  let resp : FetchesResponseM α := ⟨data, r.status, r.statusText, r.headers, cfg⟩
  if ¬ (200 ≤ r.status ∧ r.status < 300) then
    .error (.fetchesResponse r.status r.statusText)
  else
    match vschema with
    | some sch =>
      if cfg.validateResponse.getD validateResponseDefault then
        match sch data with
        | .ok v => .ok { resp with data := v }
        | .error m => .error (.fetchesValidation ("Response validation failed: " ++ m))
      else .ok resp
    | none => .ok resp

/-! ## The instance and the retry loop (src/lib/fetches.ts:37-56, 190-251) -/

/-- The instance state built by the `Fetches` constructor, restricted to the
fields the orchestrator core reads (defaults: `timeout` 30000,
`validateResponse` true, cache capacity 100). -/
structure InstanceM (α : Type) where
  baseURL : Option String
  timeout : Nat
  validateResponse : Bool
  cache : RequestCacheM (FetchesResponseM α)
  retryConfig : Option RetryConfigM
  reqTransformers : List (RequestConfigM → RequestConfigM)
  respTransformers : List (RawResponse α → α → α)
  reqInterceptors : List ReqSlot
  respInterceptors : List (RespSlot α)

/-- The body of one iteration of the retry loop (src/lib/fetches.ts:204-239):
apply the request transformers, perform the transport call with the resolved
per-attempt timeout, process the response, and run the response
interceptors. -/
def attemptOnce (inst : InstanceM α) (vschema : Option (α → Except String α))
    (cfg : RequestConfigM) (signal : ControllerState) (t : TransportCall α) :
    Except JsError (FetchesResponseM α) :=
  let tc := inst.reqTransformers.foldl (fun c f => f c) cfg
  match performRequest signal (tc.timeout.getD inst.timeout) t with
  | .error e => .error e
  | .ok raw =>
    match processResponse inst.validateResponse inst.respTransformers vschema tc raw with
    | .error e => .error e
    | .ok resp => applyResponseInterceptors inst.respInterceptors resp

/-- The retry loop of `executeRequest` (src/lib/fetches.ts:200-250), with
`fuel = maxAttempts - attempt` making `while (attempt < maxAttempts)`
structural. Returns (number of transport attempts performed, number of
backoff delays awaited, outcome). A failed attempt that `shouldRetry` rejects
raises the normalized error; falling out of the loop raises the plain
`Error('Max retry attempts reached')`. -/
def executeGo (inst : InstanceM α) (vschema : Option (α → Except String α))
    (cfg : RequestConfigM) (signal : ControllerState)
    (behavior : Nat → TransportCall α) (maxAttempts : Nat) :
    Nat → Nat → Nat × Nat × Except JsError (FetchesResponseM α)
  | 0, _ => (0, 0, .error (.plainError "Max retry attempts reached"))
  | fuel + 1, attempt =>
    match attemptOnce inst vschema cfg signal (behavior attempt) with
    | .ok r => (1, 0, .ok r)
    | .error e =>
      if shouldRetry inst.retryConfig e attempt maxAttempts then
        let r := executeGo inst vschema cfg signal behavior maxAttempts fuel (attempt + 1)
        (r.1 + 1, r.2.1 + 1, r.2.2)
      else (1, 0, .error (normalizeError e))

/-- Embedding of `Fetches.executeRequest` (src/lib/fetches.ts:190-251): run the retry loop
from attempt 0 with `maxAttempts = this.retryConfig?.attempts ?? 1`. -/
def executeRequest (inst : InstanceM α) (vschema : Option (α → Except String α))
    (cfg : RequestConfigM) (signal : ControllerState)
    (behavior : Nat → TransportCall α) :
    Nat × Nat × Except JsError (FetchesResponseM α) :=
  executeGo inst vschema cfg signal behavior (maxAttemptsOf inst.retryConfig)
    (maxAttemptsOf inst.retryConfig) 0

/-! ## URL resolution and the public `request` (src/lib/fetches.ts:139-188,
470-510)

`toUpperCase`, `startsWith` and `split('?')[0]` are embedded by structural
recursion over the character list (the library versions recurse on byte
positions, which the kernel cannot evaluate), so concrete scenarios reduce. -/

/-- JavaScript `String.prototype.toUpperCase` (ASCII, as method names are). -/
def jsToUpper (s : String) : String :=
  ⟨s.data.map Char.toUpper⟩

/-- JavaScript `String.prototype.startsWith(pre)`. -/
def strStartsWith (s pre : String) : Bool :=
  pre.data.isPrefixOf s.data

/-- The step `url.split('?')[0]`: the prefix before the first `?`. -/
def stripQuery (url : String) : String :=
  ⟨url.data.takeWhile (fun ch => ch ≠ '?')⟩

/-- Embedding of `Fetches.buildUrl` (src/lib/fetches.ts:470-510) for the params-free path:
absolute endpoints pass through; otherwise the base
(`baseURL ?? this.baseURL ?? ''`) is prefixed, inserting `/` unless the
endpoint already starts with one. -/
def buildUrl (endpoint : String) (base instBase : Option String) : String :=
  let b := base.getD (instBase.getD "")
  if strStartsWith endpoint "http://" || strStartsWith endpoint "https://" then
    endpoint
  else if strStartsWith endpoint "/" then b ++ endpoint
  else b ++ "/" ++ endpoint

/-- The config merge at the top of `Fetches.request`
(src/lib/fetches.ts:140-150): call-site fields win over instance defaults. -/
def mergeConfig (inst : InstanceM α) (cfg : RequestConfigM) : RequestConfigM :=
  { cfg with
    baseURL := match cfg.baseURL with
               | some b => some b
               | none => inst.baseURL,
    timeout := some (cfg.timeout.getD inst.timeout),
    validateResponse := some (cfg.validateResponse.getD inst.validateResponse) }

/-- The outcome of one `request` call: the settled result, the number of
transport attempts performed, the number of backoff delays awaited, and the
cache state afterwards. -/
structure ReqOutcome (α : Type) where
  result : Except JsError (FetchesResponseM α)
  transportAttempts : Nat
  delays : Nat
  cacheAfter : RequestCacheM (FetchesResponseM α)
deriving Repr

/-- Embedding of `Fetches.request` (src/lib/fetches.ts:139-188): merge
config, run the request interceptors (their errors propagate raw), resolve
method/URL/cache key; for a non-bypassed GET consult the cache and return a
hit immediately with no transport attempt; otherwise run the retry loop, and
on success either store the envelope (non-bypassed GET, lifetime
`cacheTime ?? 300000`) or, for a mutating verb, invalidate the cached
GET/HEAD entries whose key starts with the same query-stripped URL. -/
def request (inst : InstanceM α) (cfg : RequestConfigM)
    (vschema : Option (α → Except String α))
    (behavior : Nat → TransportCall α) (signal : ControllerState) (now : Nat) :
    ReqOutcome α :=
  match applyRequestInterceptors inst.reqInterceptors (mergeConfig inst cfg) with
  | .error e => ⟨.error e, 0, 0, inst.cache⟩
  | .ok fc =>
    let method := jsToUpper (fc.method.getD "GET")
    let url := buildUrl (fc.url.getD "") fc.baseURL inst.baseURL
    let key := getCacheKey method url fc.data
    if method = "GET" && !fc.skipCache then
      match inst.cache.get key now with
      | (some v, c') => ⟨.ok v, 0, 0, c'⟩
      | (none, c') =>
        let r := executeRequest inst vschema fc signal behavior
        match r.2.2 with
        | .ok resp =>
          ⟨.ok resp, r.1, r.2.1, c'.set key resp (fc.cacheTime.getD 300000) now⟩
        | .error e => ⟨.error e, r.1, r.2.1, c'⟩
    else
      let r := executeRequest inst vschema fc signal behavior
      match r.2.2 with
      | .ok resp =>
        if method = "POST" || method = "PUT" || method = "PATCH"
            || method = "DELETE" then
          let base := stripQuery url
          ⟨.ok resp, r.1, r.2.1,
            inst.cache.invalidate
              (fun k => strStartsWith k ("GET:" ++ base)
                        || strStartsWith k ("HEAD:" ++ base))⟩
        else ⟨.ok resp, r.1, r.2.1, inst.cache⟩
      | .error e => ⟨.error e, r.1, r.2.1, inst.cache⟩

/-! ## The cancellation registry (src/lib/fetches.ts:126-137) -/

/-- Look up an in-flight request's controller in `activeRequests`. -/
def registryGet (reg : List (String × ControllerState)) (id : String) :
    Option ControllerState :=
  match reg with
  | [] => none
  | (id', c) :: rest => if id' = id then some c else registryGet rest id

/-- Remove an id from `activeRequests`. -/
def registryDelete (reg : List (String × ControllerState)) (id : String) :
    List (String × ControllerState) :=
  match reg with
  | [] => []
  | (id', c) :: rest =>
    if id' = id then rest else (id', c) :: registryDelete rest id

/-- Embedding of `Fetches.cancelRequest` (src/lib/fetches.ts:126-132): if a
controller is registered under the id, abort it (the aborted state is what
the in-flight call's `fetch` observes through the shared signal) and
deregister it. Returns the registry afterwards and the aborted controller, if
any. -/
def cancelRequest (reg : List (String × ControllerState)) (id : String) :
    List (String × ControllerState) × Option ControllerState :=
  match registryGet reg id with
  | some ctrl => (registryDelete reg id, some (abortCtrl ctrl))
  | none => (reg, none)

/-! ## Operation sequences over the cache, for the trace properties -/

/-- One public cache operation (the mutating surface of `RequestCache`). The
`invalidate` pattern's match function is abstracted as a predicate. -/
inductive CacheOp (α : Type) where
  | set (k : String) (v : α) (ttl : Nat) (now : Nat)
  | get (k : String) (now : Nat)
  | clear
  | invalidate (p : String → Bool)

/-- Apply one operation to the store (a `get`'s result is discarded; its
mutation — lazy expiry and LRU promotion — is kept). -/
def applyOp (c : RequestCacheM α) : CacheOp α → RequestCacheM α
  | .set k v ttl now => c.set k v ttl now
  | .get k now => (c.get k now).2
  | .clear => c.clear
  | .invalidate p => c.invalidate p

/-- Run a sequence of operations. -/
def runOps (c : RequestCacheM α) (ops : List (CacheOp α)) : RequestCacheM α :=
  ops.foldl applyOp c

/-- Whether an operation is a `set`/`get` access (the operations C7's
sequences consist of). -/
def CacheOp.isAccess : CacheOp α → Bool
  | .set _ _ _ _ => true
  | .get _ _ => true
  | _ => false

/-- The `Date.now()` reading an access observes. -/
def CacheOp.timeOf : CacheOp α → Nat
  | .set _ _ _ now => now
  | .get _ now => now
  | _ => 0

/-- The key a `set` operation writes, if any. -/
def CacheOp.setKey : CacheOp α → Option String
  | .set k _ _ _ => some k
  | _ => none

/-- The clock reading after a sequence of accesses (the last access's time,
or the starting time for an empty sequence). -/
def endTime (tLast : Nat) : List (CacheOp α) → Nat
  | [] => tLast
  | op :: rest => endTime op.timeOf rest

/-- The (value, ttl, write-time) of the last `set` to key `k`, folded left
with accumulator `acc`. -/
def lastSetFrom (k : String) (acc : Option (α × Nat × Nat)) :
    List (CacheOp α) → Option (α × Nat × Nat)
  | [] => acc
  | .set k' v ttl t :: rest =>
    lastSetFrom k (if k' = k then some (v, ttl, t) else acc) rest
  | _ :: rest => lastSetFrom k acc rest

/-- The last `set` to key `k` in a sequence. -/
def lastSetFor (k : String) (ops : List (CacheOp α)) : Option (α × Nat × Nat) :=
  lastSetFrom k none ops

/-- Structural well-formedness of a cache store: the map's keys (in map
order) are a permutation of the recency list, which holds no duplicates.
Every state reachable from `RequestCacheM.empty` satisfies it. -/
def CacheInv (c : RequestCacheM α) : Prop :=
  (c.cache.map Prod.fst).Perm c.keyOrder ∧ c.keyOrder.Nodup

/-- The per-key relation between the last write recorded for `k` and the
store's entry for `k`, at clock reading `tLast`: an unwritten key is absent;
a written key either still holds exactly the written entry, or was purged —
which can only have happened after its TTL elapsed. -/
def KeyRel (φ : Option (α × Nat × Nat)) (k : String) (c : RequestCacheM α)
    (tLast : Nat) : Prop :=
  match φ with
  | none => mapLookup k c.cache = none
  | some (v, ttl, t) =>
    (mapLookup k c.cache = some ⟨v, t, ttl⟩ ∧ t ≤ tLast)
    ∨ (mapLookup k c.cache = none ∧ t ≤ tLast ∧ tLast - t > ttl)

/-- A sequence of `set`s of the given (key, value) pairs, all with the same
TTL and at the same clock reading. -/
def fillOps (ps : List (String × α)) (ttl now : Nat) : List (CacheOp α) :=
  ps.map (fun p => .set p.1 p.2 ttl now)

/-- The entry map produced by storing the given (key, value) pairs with one
TTL at one clock reading. -/
def fillEntries (ps : List (String × α)) (ttl now : Nat) :
    List (String × CacheEntryM α) :=
  ps.map (fun p => (p.1, ⟨p.2, now, ttl⟩))

-- Decidable equality of `Except` results, for evaluating concrete scenarios.
deriving instance DecidableEq for Except

/-! ## Concrete objects used in scenario statements -/

/-- A request-interceptor slot whose fulfillment hook appends a marker to the
config's URL — used to observe execution order in concrete scenarios. -/
def markSlot (i : String) : ReqSlot :=
  ⟨some (fun c => .ok { c with url := some ((c.url.getD "") ++ i) }), false⟩

/-- An all-default request configuration (with an empty URL to collect the
markers). -/
def blankConfig : RequestConfigM :=
  ⟨some "", none, none, none, none, none, none, false, none⟩

/-! ## Helper lemmas: the map and recency-list primitives -/

@[simp]
theorem mapLookup_insert_self (k : String) (e : CacheEntryM α)
    (m : List (String × CacheEntryM α)) :
    mapLookup k (mapInsert k e m) = some e := by
  induction m with
  | nil => simp [mapInsert, mapLookup]
  | cons p rest ih =>
    by_cases h : p.1 = k
    · simp [mapInsert, mapLookup, h]
    · cases p with
      | mk k' e' => simp_all [mapInsert, mapLookup]

theorem mapLookup_insert_ne (h : k' ≠ k) (e : CacheEntryM α)
    (m : List (String × CacheEntryM α)) :
    mapLookup k (mapInsert k' e m) = mapLookup k m := by
  induction m with
  | nil => simp [mapInsert, mapLookup, h]
  | cons p rest ih =>
    by_cases hp : p.1 = k'
    · cases p with
      | mk a b => simp_all [mapInsert, mapLookup]
    · cases p with
      | mk a b =>
        by_cases hk : a = k <;> simp_all [mapInsert, mapLookup]

theorem mapLookup_delete_ne (h : k' ≠ k) (m : List (String × CacheEntryM α)) :
    mapLookup k (mapDelete k' m) = mapLookup k m := by
  induction m with
  | nil => simp [mapDelete, mapLookup]
  | cons p rest ih =>
    cases p with
    | mk a b =>
      by_cases ha : a = k'
      · subst ha
        simp [mapDelete, mapLookup, h]
      · by_cases hk : a = k <;> simp_all [mapDelete, mapLookup]

theorem mapLookup_delete_of_none (h : mapLookup k m = none)
    (k' : String) : mapLookup k (mapDelete k' m) = none := by
  induction m with
  | nil => simp [mapDelete, mapLookup]
  | cons p rest ih =>
    cases p with
    | mk a b =>
      by_cases ha : a = k'
      · subst ha
        simp only [mapLookup] at h
        split at h
        · exact absurd h (by simp)
        · simpa [mapDelete] using h
      · by_cases hk : a = k
        · subst hk
          simp [mapLookup] at h
        · simp only [mapLookup, if_neg hk] at h
          simp [mapDelete, ha, mapLookup, hk, ih h]

@[simp]
theorem mapDelete_keys (k : String) (m : List (String × CacheEntryM α)) :
    (mapDelete k m).map Prod.fst = orderErase k (m.map Prod.fst) := by
  induction m with
  | nil => simp [mapDelete, orderErase]
  | cons p rest ih =>
    cases p with
    | mk a b =>
      by_cases ha : a = k <;> simp [mapDelete, orderErase, ha, ih]

theorem mapLookup_isSome_iff (k : String) (m : List (String × CacheEntryM α)) :
    (mapLookup k m).isSome ↔ k ∈ m.map Prod.fst := by
  induction m with
  | nil => simp [mapLookup]
  | cons p rest ih =>
    cases p with
    | mk a b =>
      by_cases ha : a = k
      · subst ha
        simp [mapLookup]
      · have hk : ¬ k = a := fun hh => ha hh.symm
        simp [mapLookup, ha, hk, ih]

theorem mapLookup_eq_none_of_not_mem (h : k ∉ m.map Prod.fst) :
    mapLookup k m = none := by
  have := (mapLookup_isSome_iff k m).not.mpr h
  cases hm : mapLookup k m with
  | none => rfl
  | some e => exact absurd (by simp [hm]) this

theorem mapLookup_mem (h : mapLookup k m = some e) : (k, e) ∈ m := by
  induction m with
  | nil => simp [mapLookup] at h
  | cons p rest ih =>
    cases p with
    | mk a b =>
      by_cases ha : a = k
      · subst ha
        simp only [mapLookup, if_pos rfl] at h
        cases h
        exact List.mem_cons_self _ _
      · simp only [mapLookup, if_neg ha] at h
        exact List.mem_cons_of_mem _ (ih h)

theorem mapLookup_delete_self (hm : (m.map Prod.fst).Nodup) (k : String) :
    mapLookup k (mapDelete k m) = none := by
  induction m with
  | nil => simp [mapDelete, mapLookup]
  | cons p rest ih =>
    cases p with
    | mk a b =>
      simp only [List.map_cons, List.nodup_cons] at hm
      by_cases ha : a = k
      · subst ha
        simpa [mapDelete] using mapLookup_eq_none_of_not_mem hm.1
      · simp [mapDelete, ha, mapLookup, ih hm.2]

theorem mapInsert_keys_of_has (m : List (String × CacheEntryM α))
    (h : mapHas k m = true) (e : CacheEntryM α) :
    (mapInsert k e m).map Prod.fst = m.map Prod.fst := by
  induction m with
  | nil => simp [mapHas, mapLookup] at h
  | cons p rest ih =>
    cases p with
    | mk a b =>
      by_cases ha : a = k
      · simp [mapInsert, ha]
      · simp only [mapHas, mapLookup, if_neg ha] at h
        simp [mapInsert, ha, ih h]

theorem mapInsert_keys_of_not_has (m : List (String × CacheEntryM α))
    (h : ¬ mapHas k m = true) (e : CacheEntryM α) :
    (mapInsert k e m).map Prod.fst = m.map Prod.fst ++ [k] := by
  induction m with
  | nil => simp [mapInsert]
  | cons p rest ih =>
    cases p with
    | mk a b =>
      by_cases ha : a = k
      · exact absurd (by simp [mapHas, mapLookup, ha]) h
      · simp only [mapHas, mapLookup, if_neg ha] at h
        simp [mapInsert, ha, ih h]

theorem mapInsert_of_not_has (m : List (String × CacheEntryM α))
    (h : ¬ mapHas k m = true) (e : CacheEntryM α) :
    mapInsert k e m = m ++ [(k, e)] := by
  induction m with
  | nil => simp [mapInsert]
  | cons p rest ih =>
    cases p with
    | mk a b =>
      by_cases ha : a = k
      · exact absurd (by simp [mapHas, mapLookup, ha]) h
      · simp only [mapHas, mapLookup, if_neg ha] at h
        simp [mapInsert, ha, ih h]

theorem mapLookup_append (k : String) (m₁ m₂ : List (String × CacheEntryM α)) :
    mapLookup k (m₁ ++ m₂) =
      match mapLookup k m₁ with
      | some e => some e
      | none => mapLookup k m₂ := by
  induction m₁ with
  | nil => simp [mapLookup]
  | cons p rest ih =>
    cases p with
    | mk a b =>
      by_cases ha : a = k <;> simp [mapLookup, ha, ih]

@[simp]
theorem orderErase_eq_erase (k : String) (l : List String) :
    orderErase k l = l.erase k := by
  induction l with
  | nil => simp [orderErase]
  | cons a rest ih =>
    by_cases ha : a = k
    · simp [orderErase, ha, List.erase_cons_head]
    · rw [orderErase, if_neg ha, List.erase_cons_tail, ih]
      simp [ha]

/-! ## Helper lemmas: the store invariant and the cache operations -/

theorem cacheInv_empty (maxSize : Nat) :
    CacheInv (RequestCacheM.empty (α := α) maxSize) := by
  constructor <;> simp [RequestCacheM.empty]

theorem CacheInv.nodup_keys (h : CacheInv c) :
    ((c.cache.map Prod.fst) : List String).Nodup :=
  h.1.nodup_iff.mpr h.2

theorem CacheInv.length_eq (h : CacheInv c) :
    c.cache.length = c.keyOrder.length := by
  have := h.1.length_eq
  simpa using this

theorem CacheInv.mem_keyOrder_iff (h : CacheInv c) (k : String) :
    k ∈ c.keyOrder ↔ (mapLookup k c.cache).isSome := by
  rw [← h.1.mem_iff, mapLookup_isSome_iff]

theorem cacheInv_del (h : CacheInv c) (k : String) : CacheInv (c.del k) := by
  constructor
  · simp only [RequestCacheM.del, mapDelete_keys, orderErase_eq_erase]
    exact h.1.erase k
  · simp only [RequestCacheM.del, orderErase_eq_erase]
    exact h.2.erase k

theorem del_lookup_self (h : CacheInv c) (k : String) :
    mapLookup k (c.del k).cache = none :=
  mapLookup_delete_self h.nodup_keys k

theorem del_lookup_ne (c : RequestCacheM α) (hne : k' ≠ k) :
    mapLookup k (c.del k').cache = mapLookup k c.cache :=
  mapLookup_delete_ne hne c.cache

theorem del_keyOrder_subset (c : RequestCacheM α) (k : String) :
    (c.del k).keyOrder ⊆ c.keyOrder := by
  simp only [RequestCacheM.del, orderErase_eq_erase]
  exact List.erase_subset k c.keyOrder

theorem del_maxSize (c : RequestCacheM α) (k : String) :
    (c.del k).maxSize = c.maxSize := rfl

theorem mapDelete_length_le (k : String) (m : List (String × CacheEntryM α)) :
    (mapDelete k m).length ≤ m.length := by
  induction m with
  | nil => simp [mapDelete]
  | cons p rest ih =>
    cases p with
    | mk a b =>
      by_cases ha : a = k
      · simp only [mapDelete, if_pos ha, List.length_cons]
        omega
      · simp only [mapDelete, if_neg ha, List.length_cons]
        have := ih
        omega

theorem mapDelete_length_of_mem (hm : k ∈ m.map Prod.fst) :
    (mapDelete k m).length = m.length - 1 := by
  have h1 : (mapDelete k m).length = ((mapDelete k m).map Prod.fst).length := by
    rw [List.length_map]
  rw [h1, mapDelete_keys, orderErase_eq_erase, List.length_erase_of_mem hm,
    List.length_map]

theorem sweepKeys_cacheInv (now : Nat) (ks : List String) :
    ∀ c : RequestCacheM α, CacheInv c → CacheInv (RequestCacheM.sweepKeys now ks c) := by
  induction ks with
  | nil => intro c h; simpa [RequestCacheM.sweepKeys] using h
  | cons k rest ih =>
    intro c h
    simp only [RequestCacheM.sweepKeys]
    cases hl : mapLookup k c.cache with
    | none => exact ih c h
    | some e =>
      by_cases he : RequestCacheM.isExpired now e
      · simpa [he] using ih (c.del k) (cacheInv_del h k)
      · simpa [he] using ih c h

theorem sweepKeys_maxSize (now : Nat) (ks : List String) (c : RequestCacheM α) :
    (RequestCacheM.sweepKeys now ks c).maxSize = c.maxSize := by
  induction ks generalizing c with
  | nil => rfl
  | cons k rest ih =>
    simp only [RequestCacheM.sweepKeys]
    cases hl : mapLookup k c.cache with
    | none => exact ih c
    | some e =>
      by_cases he : RequestCacheM.isExpired now e
      · simpa [he] using ih (c.del k)
      · simpa [he] using ih c

theorem sweepKeys_lookup_none (now : Nat) (ks : List String) :
    ∀ c : RequestCacheM α, mapLookup k c.cache = none →
      mapLookup k (RequestCacheM.sweepKeys now ks c).cache = none := by
  induction ks with
  | nil => intro c h; simpa [RequestCacheM.sweepKeys] using h
  | cons k' rest ih =>
    intro c h
    simp only [RequestCacheM.sweepKeys]
    cases hl : mapLookup k' c.cache with
    | none => exact ih c h
    | some e =>
      by_cases he : RequestCacheM.isExpired now e
      · simp only [he, if_pos rfl]
        exact ih (c.del k') (mapLookup_delete_of_none h k')
      · simpa [he] using ih c h

theorem sweepKeys_lookup_fresh (now : Nat) (ks : List String) :
    ∀ c : RequestCacheM α, CacheInv c → mapLookup k c.cache = some e →
      ¬ RequestCacheM.isExpired now e = true →
      mapLookup k (RequestCacheM.sweepKeys now ks c).cache = some e := by
  induction ks with
  | nil => intro c _ h _; simpa [RequestCacheM.sweepKeys] using h
  | cons k' rest ih =>
    intro c hInv h hfresh
    simp only [RequestCacheM.sweepKeys]
    by_cases hk : k' = k
    · subst hk
      rw [h]
      simpa [hfresh] using ih c hInv h hfresh
    · cases hl : mapLookup k' c.cache with
      | none => exact ih c hInv h hfresh
      | some e' =>
        by_cases he : RequestCacheM.isExpired now e'
        · simp only [he, if_pos rfl]
          refine ih (c.del k') (cacheInv_del hInv k') ?_ hfresh
          rw [del_lookup_ne c hk]
          exact h
        · simpa [he] using ih c hInv h hfresh

theorem sweepKeys_lookup_expired (now : Nat) (ks : List String) :
    ∀ c : RequestCacheM α, CacheInv c → mapLookup k c.cache = some e →
      RequestCacheM.isExpired now e = true → k ∈ ks →
      mapLookup k (RequestCacheM.sweepKeys now ks c).cache = none := by
  induction ks with
  | nil => intro c _ _ _ hmem; simp at hmem
  | cons k' rest ih =>
    intro c hInv h hexp hmem
    simp only [RequestCacheM.sweepKeys]
    by_cases hk : k' = k
    · subst hk
      rw [h]
      simp only [hexp, if_pos rfl]
      exact sweepKeys_lookup_none now rest (c.del k') (del_lookup_self hInv k')
    · have hmem' : k ∈ rest := by
        rcases List.mem_cons.mp hmem with h1 | h1
        · exact absurd h1.symm hk
        · exact h1
      cases hl : mapLookup k' c.cache with
      | none => exact ih c hInv h hexp hmem'
      | some e' =>
        by_cases he : RequestCacheM.isExpired now e'
        · simp only [he, if_pos rfl]
          refine ih (c.del k') (cacheInv_del hInv k') ?_ hexp hmem'
          rw [del_lookup_ne c hk]
          exact h
        · simpa [he] using ih c hInv h hexp hmem'

theorem sweepKeys_lookup_isSome (now : Nat) (ks : List String)
    (c : RequestCacheM α)
    (h : (mapLookup k (RequestCacheM.sweepKeys now ks c).cache).isSome = true) :
    (mapLookup k c.cache).isSome = true := by
  cases hl : mapLookup k c.cache with
  | none =>
    rw [sweepKeys_lookup_none now ks c hl] at h
    simp at h
  | some e => simp

theorem sweepKeys_length_le (now : Nat) (ks : List String) :
    ∀ c : RequestCacheM α,
      (RequestCacheM.sweepKeys now ks c).cache.length ≤ c.cache.length := by
  induction ks with
  | nil => intro c; simp [RequestCacheM.sweepKeys]
  | cons k' rest ih =>
    intro c
    simp only [RequestCacheM.sweepKeys]
    cases hl : mapLookup k' c.cache with
    | none => exact ih c
    | some e =>
      by_cases he : RequestCacheM.isExpired now e
      · simp only [he, if_pos rfl]
        exact le_trans (ih (c.del k')) (mapDelete_length_le k' c.cache)
      · simpa [he] using ih c

theorem sweepKeys_keyOrder_subset (now : Nat) (ks : List String) :
    ∀ c : RequestCacheM α,
      (RequestCacheM.sweepKeys now ks c).keyOrder ⊆ c.keyOrder := by
  induction ks with
  | nil => intro c; simp [RequestCacheM.sweepKeys]
  | cons k' rest ih =>
    intro c
    simp only [RequestCacheM.sweepKeys]
    cases hl : mapLookup k' c.cache with
    | none => exact ih c
    | some e =>
      by_cases he : RequestCacheM.isExpired now e
      · simp only [he, if_pos rfl]
        exact subset_trans (ih (c.del k')) (del_keyOrder_subset c k')
      · simpa [he] using ih c

theorem removeExpiredEntries_cacheInv (now : Nat) (c : RequestCacheM α)
    (h : CacheInv c) : CacheInv (RequestCacheM.removeExpiredEntries now c) :=
  sweepKeys_cacheInv now _ c h

theorem removeExpiredEntries_lookup (now : Nat) (c : RequestCacheM α)
    (h : CacheInv c) (k : String) :
    mapLookup k (RequestCacheM.removeExpiredEntries now c).cache =
      match mapLookup k c.cache with
      | some e => if RequestCacheM.isExpired now e then none else some e
      | none => none := by
  cases hl : mapLookup k c.cache with
  | none => exact sweepKeys_lookup_none now _ c hl
  | some e =>
    by_cases he : RequestCacheM.isExpired now e
    · simp only [he, if_pos rfl]
      refine sweepKeys_lookup_expired now _ c h hl he ?_
      rw [← mapLookup_isSome_iff]
      simp [hl]
    · simp only [if_neg he]
      exact sweepKeys_lookup_fresh now _ c h hl he

/-! ## Helper lemmas: case equations for `RequestCacheM.set` and `get` -/

theorem set_eq_of_has (c : RequestCacheM α) (k : String) (v : α) (ttl now : Nat)
    (hhas : mapHas k (RequestCacheM.removeExpiredEntries now c).cache = true) :
    c.set k v ttl now =
      { cache := mapInsert k ⟨v, now, ttl⟩
          (RequestCacheM.removeExpiredEntries now c).cache,
        maxSize := (RequestCacheM.removeExpiredEntries now c).maxSize,
        keyOrder := orderErase k
          (RequestCacheM.removeExpiredEntries now c).keyOrder ++ [k] } := by
  simp [RequestCacheM.set, hhas]

theorem set_eq_of_not_has_small (c : RequestCacheM α) (k : String) (v : α)
    (ttl now : Nat)
    (hhas : ¬ mapHas k (RequestCacheM.removeExpiredEntries now c).cache = true)
    (hlen : ¬ (RequestCacheM.removeExpiredEntries now c).cache.length ≥
      (RequestCacheM.removeExpiredEntries now c).maxSize) :
    c.set k v ttl now =
      { cache := mapInsert k ⟨v, now, ttl⟩
          (RequestCacheM.removeExpiredEntries now c).cache,
        maxSize := (RequestCacheM.removeExpiredEntries now c).maxSize,
        keyOrder := (RequestCacheM.removeExpiredEntries now c).keyOrder ++ [k] } := by
  simp [RequestCacheM.set, hhas, hlen]

theorem set_eq_of_not_has_nil (c : RequestCacheM α) (k : String) (v : α)
    (ttl now : Nat)
    (hhas : ¬ mapHas k (RequestCacheM.removeExpiredEntries now c).cache = true)
    (hO : (RequestCacheM.removeExpiredEntries now c).keyOrder = []) :
    c.set k v ttl now =
      { cache := mapInsert k ⟨v, now, ttl⟩
          (RequestCacheM.removeExpiredEntries now c).cache,
        maxSize := (RequestCacheM.removeExpiredEntries now c).maxSize,
        keyOrder := [k] } := by
  by_cases hlen : (RequestCacheM.removeExpiredEntries now c).cache.length ≥
      (RequestCacheM.removeExpiredEntries now c).maxSize
  · simp [RequestCacheM.set, hhas, hlen, hO]
  · simp [RequestCacheM.set, hhas, hlen, hO]

theorem set_eq_of_not_has_empty_oldest (c : RequestCacheM α) (k : String)
    (v : α) (ttl now : Nat) (rest : List String)
    (hhas : ¬ mapHas k (RequestCacheM.removeExpiredEntries now c).cache = true)
    (hO : (RequestCacheM.removeExpiredEntries now c).keyOrder = "" :: rest) :
    c.set k v ttl now =
      { cache := mapInsert k ⟨v, now, ttl⟩
          (RequestCacheM.removeExpiredEntries now c).cache,
        maxSize := (RequestCacheM.removeExpiredEntries now c).maxSize,
        keyOrder := ("" :: rest) ++ [k] } := by
  by_cases hlen : (RequestCacheM.removeExpiredEntries now c).cache.length ≥
      (RequestCacheM.removeExpiredEntries now c).maxSize
  · simp [RequestCacheM.set, hhas, hlen, hO]
  · simp [RequestCacheM.set, hhas, hlen, hO]

theorem set_eq_of_not_has_evict (c : RequestCacheM α) (k : String) (v : α)
    (ttl now : Nat) (oldest : String) (rest : List String)
    (hhas : ¬ mapHas k (RequestCacheM.removeExpiredEntries now c).cache = true)
    (hlen : (RequestCacheM.removeExpiredEntries now c).cache.length ≥
      (RequestCacheM.removeExpiredEntries now c).maxSize)
    (hO : (RequestCacheM.removeExpiredEntries now c).keyOrder = oldest :: rest)
    (hne : ¬ oldest = "") :
    c.set k v ttl now =
      { cache := mapInsert k ⟨v, now, ttl⟩
          (mapDelete oldest (RequestCacheM.removeExpiredEntries now c).cache),
        maxSize := (RequestCacheM.removeExpiredEntries now c).maxSize,
        keyOrder := rest ++ [k] } := by
  simp [RequestCacheM.set, hhas, hlen, hO, hne]

theorem get_eq_of_none (c : RequestCacheM α) (k : String) (now : Nat)
    (hl : mapLookup k c.cache = none) :
    c.get k now = (none, c) := by
  simp [RequestCacheM.get, hl]

theorem get_eq_of_expired (c : RequestCacheM α) (k : String) (now : Nat)
    (hl : mapLookup k c.cache = some e)
    (he : RequestCacheM.isExpired now e = true) :
    c.get k now = (none, c.del k) := by
  simp [RequestCacheM.get, hl, he]

theorem get_eq_of_fresh (c : RequestCacheM α) (k : String) (now : Nat)
    (hl : mapLookup k c.cache = some e)
    (he : ¬ RequestCacheM.isExpired now e = true) :
    c.get k now =
      (some e.data, { c with keyOrder := orderErase k c.keyOrder ++ [k] }) := by
  simp [RequestCacheM.get, hl, he]

/-! ## Helper lemmas: invariant preservation -/

theorem nodup_snoc_of_not_mem (l : List String) (k : String) (hn : l.Nodup)
    (hk : k ∉ l) : (l ++ [k]).Nodup := by
  have hp := List.perm_append_singleton k l
  exact hp.nodup_iff.mpr (List.nodup_cons.mpr ⟨hk, hn⟩)

theorem perm_erase_snoc (l : List String) (k : String) (hk : k ∈ l) :
    List.Perm l (l.erase k ++ [k]) :=
  (List.perm_cons_erase hk).trans (List.perm_append_singleton k (l.erase k)).symm

theorem cacheInv_set {α : Type} {c : RequestCacheM α} (h : CacheInv c)
    (k : String) (v : α) (ttl now : Nat) :
    CacheInv (c.set k v ttl now) := by
  have h1 : CacheInv (RequestCacheM.removeExpiredEntries now c) :=
    removeExpiredEntries_cacheInv now c h
  set c1 := RequestCacheM.removeExpiredEntries now c with hc1
  by_cases hhas : mapHas k c1.cache = true
  · rw [set_eq_of_has c k v ttl now hhas]
    have hmemO : k ∈ c1.keyOrder := by
      rw [h1.mem_keyOrder_iff]
      simpa [mapHas] using hhas
    constructor
    · show List.Perm ((mapInsert k ⟨v, now, ttl⟩ c1.cache).map Prod.fst)
        (orderErase k c1.keyOrder ++ [k])
      rw [mapInsert_keys_of_has c1.cache hhas, orderErase_eq_erase]
      exact h1.1.trans (perm_erase_snoc c1.keyOrder k hmemO)
    · show (orderErase k c1.keyOrder ++ [k]).Nodup
      rw [orderErase_eq_erase]
      exact nodup_snoc_of_not_mem _ k (h1.2.erase k) h1.2.not_mem_erase
  · have hmemO : k ∉ c1.keyOrder := by
      rw [h1.mem_keyOrder_iff]
      simpa [mapHas] using hhas
    by_cases hlen : c1.cache.length ≥ c1.maxSize
    · cases hO : c1.keyOrder with
      | nil =>
        rw [set_eq_of_not_has_nil c k v ttl now hhas hO]
        have hkeys : c1.cache.map Prod.fst = [] := by
          have := h1.1
          rw [hO] at this
          exact this.eq_nil
        constructor
        · show List.Perm ((mapInsert k ⟨v, now, ttl⟩ c1.cache).map Prod.fst) [k]
          rw [mapInsert_keys_of_not_has c1.cache hhas, hkeys]
          simp
        · simp
      | cons oldest rest =>
        by_cases hoe : oldest = ""
        · subst hoe
          rw [set_eq_of_not_has_empty_oldest c k v ttl now rest hhas hO]
          constructor
          · show List.Perm ((mapInsert k ⟨v, now, ttl⟩ c1.cache).map Prod.fst)
              (("" :: rest) ++ [k])
            rw [mapInsert_keys_of_not_has c1.cache hhas, ← hO]
            exact h1.1.append_right [k]
          · show (("" :: rest) ++ [k]).Nodup
            rw [← hO]
            refine nodup_snoc_of_not_mem _ k h1.2 hmemO
        · rw [set_eq_of_not_has_evict c k v ttl now oldest rest hhas hlen hO hoe]
          have hnr : rest.Nodup := by
            have := h1.2
            rw [hO] at this
            exact (List.nodup_cons.mp this).2
          have hkr : k ∉ rest := fun hmem => hmemO (by rw [hO]; exact List.mem_cons_of_mem _ hmem)
          have hperm3 : List.Perm ((mapDelete oldest c1.cache).map Prod.fst) rest := by
            rw [mapDelete_keys, orderErase_eq_erase]
            have := h1.1.erase oldest
            rw [hO, List.erase_cons_head] at this
            exact this
          have hnot3 : ¬ mapHas k (mapDelete oldest c1.cache) = true := by
            simp only [mapHas]
            have hnone : mapLookup k c1.cache = none := by
              cases hl : mapLookup k c1.cache with
              | none => rfl
              | some e => exact absurd (by simp [mapHas, hl]) hhas
            rw [mapLookup_delete_of_none hnone oldest]
            simp
          constructor
          · show List.Perm ((mapInsert k ⟨v, now, ttl⟩
              (mapDelete oldest c1.cache)).map Prod.fst) (rest ++ [k])
            rw [mapInsert_keys_of_not_has _ hnot3]
            exact hperm3.append_right [k]
          · show (rest ++ [k]).Nodup
            exact nodup_snoc_of_not_mem rest k hnr hkr
    · rw [set_eq_of_not_has_small c k v ttl now hhas hlen]
      constructor
      · show List.Perm ((mapInsert k ⟨v, now, ttl⟩ c1.cache).map Prod.fst)
          (c1.keyOrder ++ [k])
        rw [mapInsert_keys_of_not_has c1.cache hhas]
        exact h1.1.append_right [k]
      · show (c1.keyOrder ++ [k]).Nodup
        exact nodup_snoc_of_not_mem _ k h1.2 hmemO

theorem cacheInv_get (h : CacheInv c) (k : String) (now : Nat) :
    CacheInv (c.get k now).2 := by
  cases hl : mapLookup k c.cache with
  | none => rw [get_eq_of_none c k now hl]; exact h
  | some e =>
    by_cases he : RequestCacheM.isExpired now e = true
    · rw [get_eq_of_expired c k now hl he]
      exact cacheInv_del h k
    · rw [get_eq_of_fresh c k now hl he]
      have hmemO : k ∈ c.keyOrder := by
        rw [h.mem_keyOrder_iff]
        simp [hl]
      constructor
      · show List.Perm (c.cache.map Prod.fst) (orderErase k c.keyOrder ++ [k])
        rw [orderErase_eq_erase]
        exact h.1.trans (perm_erase_snoc c.keyOrder k hmemO)
      · show (orderErase k c.keyOrder ++ [k]).Nodup
        rw [orderErase_eq_erase]
        exact nodup_snoc_of_not_mem _ k (h.2.erase k) h.2.not_mem_erase

theorem cacheInv_clear (c : RequestCacheM α) : CacheInv c.clear := by
  constructor <;> simp [RequestCacheM.clear]

theorem cacheInv_foldl_del (ks : List String) :
    ∀ c : RequestCacheM α, CacheInv c →
      CacheInv (ks.foldl (fun acc k => acc.del k) c) := by
  induction ks with
  | nil => intro c h; simpa using h
  | cons k rest ih =>
    intro c h
    exact ih (c.del k) (cacheInv_del h k)

theorem cacheInv_invalidate (h : CacheInv c) (p : String → Bool) :
    CacheInv (c.invalidate p) :=
  cacheInv_foldl_del _ c h

theorem cacheInv_applyOp {α : Type} {c : RequestCacheM α} (h : CacheInv c)
    (op : CacheOp α) : CacheInv (applyOp c op) := by
  cases op with
  | set k v ttl now => exact cacheInv_set h k v ttl now
  | get k now => exact cacheInv_get h k now
  | clear => exact cacheInv_clear c
  | invalidate p => exact cacheInv_invalidate h p

theorem cacheInv_runOps (ops : List (CacheOp α)) :
    ∀ c : RequestCacheM α, CacheInv c → CacheInv (runOps c ops) := by
  induction ops with
  | nil => intro c h; simpa [runOps] using h
  | cons op rest ih =>
    intro c h
    exact ih (applyOp c op) (cacheInv_applyOp h op)

/-! ## Helper lemmas: sizes and the non-empty-key condition -/

theorem mapInsert_length_of_has (m : List (String × CacheEntryM α))
    (h : mapHas k m = true) (e : CacheEntryM α) :
    (mapInsert k e m).length = m.length := by
  have h1 : (mapInsert k e m).length = ((mapInsert k e m).map Prod.fst).length := by
    rw [List.length_map]
  rw [h1, mapInsert_keys_of_has m h e, List.length_map]

theorem mapInsert_length_of_not_has (m : List (String × CacheEntryM α))
    (h : ¬ mapHas k m = true) (e : CacheEntryM α) :
    (mapInsert k e m).length = m.length + 1 := by
  have h1 : (mapInsert k e m).length = ((mapInsert k e m).map Prod.fst).length := by
    rw [List.length_map]
  rw [h1, mapInsert_keys_of_not_has m h e, List.length_append, List.length_map]
  simp

theorem removeExpiredEntries_maxSize (now : Nat) (c : RequestCacheM α) :
    (RequestCacheM.removeExpiredEntries now c).maxSize = c.maxSize :=
  sweepKeys_maxSize now _ c

theorem removeExpiredEntries_length_le (now : Nat) (c : RequestCacheM α) :
    (RequestCacheM.removeExpiredEntries now c).cache.length ≤ c.cache.length :=
  sweepKeys_length_le now _ c

theorem removeExpiredEntries_keyOrder_subset (now : Nat) (c : RequestCacheM α) :
    (RequestCacheM.removeExpiredEntries now c).keyOrder ⊆ c.keyOrder :=
  sweepKeys_keyOrder_subset now _ c

theorem set_maxSize (c : RequestCacheM α) (k : String) (v : α) (ttl now : Nat) :
    (c.set k v ttl now).maxSize = c.maxSize := by
  by_cases hhas : mapHas k (RequestCacheM.removeExpiredEntries now c).cache = true
  · rw [set_eq_of_has c k v ttl now hhas]
    exact removeExpiredEntries_maxSize now c
  · by_cases hlen : (RequestCacheM.removeExpiredEntries now c).cache.length ≥
        (RequestCacheM.removeExpiredEntries now c).maxSize
    · cases hO : (RequestCacheM.removeExpiredEntries now c).keyOrder with
      | nil =>
        rw [set_eq_of_not_has_nil c k v ttl now hhas hO]
        exact removeExpiredEntries_maxSize now c
      | cons oldest rest =>
        by_cases hoe : oldest = ""
        · subst hoe
          rw [set_eq_of_not_has_empty_oldest c k v ttl now rest hhas hO]
          exact removeExpiredEntries_maxSize now c
        · rw [set_eq_of_not_has_evict c k v ttl now oldest rest hhas hlen hO hoe]
          exact removeExpiredEntries_maxSize now c
    · rw [set_eq_of_not_has_small c k v ttl now hhas hlen]
      exact removeExpiredEntries_maxSize now c

theorem get_maxSize (c : RequestCacheM α) (k : String) (now : Nat) :
    (c.get k now).2.maxSize = c.maxSize := by
  cases hl : mapLookup k c.cache with
  | none => rw [get_eq_of_none c k now hl]
  | some e =>
    by_cases he : RequestCacheM.isExpired now e = true
    · rw [get_eq_of_expired c k now hl he]
      rfl
    · rw [get_eq_of_fresh c k now hl he]

theorem foldl_del_maxSize (ks : List String) :
    ∀ c : RequestCacheM α,
      (ks.foldl (fun acc k => acc.del k) c).maxSize = c.maxSize := by
  induction ks with
  | nil => intro c; rfl
  | cons k rest ih => intro c; exact ih (c.del k)

theorem foldl_del_length_le (ks : List String) :
    ∀ c : RequestCacheM α,
      (ks.foldl (fun acc k => acc.del k) c).cache.length ≤ c.cache.length := by
  induction ks with
  | nil => intro c; simp
  | cons k rest ih =>
    intro c
    exact le_trans (ih (c.del k)) (mapDelete_length_le k c.cache)

theorem foldl_del_keyOrder_subset (ks : List String) :
    ∀ c : RequestCacheM α,
      (ks.foldl (fun acc k => acc.del k) c).keyOrder ⊆ c.keyOrder := by
  induction ks with
  | nil => intro c; simp
  | cons k rest ih =>
    intro c
    exact subset_trans (ih (c.del k)) (del_keyOrder_subset c k)

theorem applyOp_maxSize (c : RequestCacheM α) (op : CacheOp α) :
    (applyOp c op).maxSize = c.maxSize := by
  cases op with
  | set k v ttl now => exact set_maxSize c k v ttl now
  | get k now => exact get_maxSize c k now
  | clear => rfl
  | invalidate p => exact foldl_del_maxSize _ c

theorem set_keyOrder_ne {α : Type} {c : RequestCacheM α} (h : CacheInv c)
    (hne : ∀ k' ∈ c.keyOrder, k' ≠ "") (k : String) (hk : k ≠ "")
    (v : α) (ttl now : Nat) :
    ∀ k' ∈ (c.set k v ttl now).keyOrder, k' ≠ "" := by
  have hne1 : ∀ k' ∈ (RequestCacheM.removeExpiredEntries now c).keyOrder, k' ≠ "" :=
    fun k' hm => hne k' (removeExpiredEntries_keyOrder_subset now c hm)
  by_cases hhas : mapHas k (RequestCacheM.removeExpiredEntries now c).cache = true
  · rw [set_eq_of_has c k v ttl now hhas]
    intro k' hm
    rcases List.mem_append.mp hm with h1 | h1
    · rw [orderErase_eq_erase] at h1
      exact hne1 k' (List.erase_subset _ _ h1)
    · rw [List.mem_singleton.mp h1]
      exact hk
  · by_cases hlen : (RequestCacheM.removeExpiredEntries now c).cache.length ≥
        (RequestCacheM.removeExpiredEntries now c).maxSize
    · cases hO : (RequestCacheM.removeExpiredEntries now c).keyOrder with
      | nil =>
        rw [set_eq_of_not_has_nil c k v ttl now hhas hO]
        intro k' hm
        rw [List.mem_singleton.mp hm]
        exact hk
      | cons oldest rest =>
        by_cases hoe : oldest = ""
        · exfalso
          refine hne1 "" ?_ rfl
          rw [hO, ← hoe]
          exact List.mem_cons_self _ _
        · rw [set_eq_of_not_has_evict c k v ttl now oldest rest hhas hlen hO hoe]
          intro k' hm
          rcases List.mem_append.mp hm with h1 | h1
          · refine hne1 k' ?_
            rw [hO]
            exact List.mem_cons_of_mem _ h1
          · rw [List.mem_singleton.mp h1]
            exact hk
    · rw [set_eq_of_not_has_small c k v ttl now hhas hlen]
      intro k' hm
      rcases List.mem_append.mp hm with h1 | h1
      · exact hne1 k' h1
      · rw [List.mem_singleton.mp h1]
        exact hk

theorem get_keyOrder_ne {α : Type} {c : RequestCacheM α} (h : CacheInv c)
    (hne : ∀ k' ∈ c.keyOrder, k' ≠ "") (k : String) (now : Nat) :
    ∀ k' ∈ (c.get k now).2.keyOrder, k' ≠ "" := by
  cases hl : mapLookup k c.cache with
  | none =>
    rw [get_eq_of_none c k now hl]
    exact hne
  | some e =>
    by_cases he : RequestCacheM.isExpired now e = true
    · rw [get_eq_of_expired c k now hl he]
      exact fun k' hm => hne k' (del_keyOrder_subset c k hm)
    · rw [get_eq_of_fresh c k now hl he]
      intro k' hm
      rcases List.mem_append.mp hm with h1 | h1
      · rw [orderErase_eq_erase] at h1
        exact hne k' (List.erase_subset _ _ h1)
      · rw [List.mem_singleton.mp h1]
        refine hne k ?_
        rw [h.mem_keyOrder_iff]
        simp [hl]

theorem set_size_le {α : Type} {c : RequestCacheM α} (h : CacheInv c)
    (hne : ∀ k' ∈ c.keyOrder, k' ≠ "") (hmax : 1 ≤ c.maxSize)
    (hsz : c.cache.length ≤ c.maxSize) (k : String) (v : α) (ttl now : Nat) :
    (c.set k v ttl now).cache.length ≤ c.maxSize := by
  have h1 : CacheInv (RequestCacheM.removeExpiredEntries now c) :=
    removeExpiredEntries_cacheInv now c h
  have hlen1 : (RequestCacheM.removeExpiredEntries now c).cache.length ≤ c.maxSize :=
    le_trans (removeExpiredEntries_length_le now c) hsz
  have hmax1 : (RequestCacheM.removeExpiredEntries now c).maxSize = c.maxSize :=
    removeExpiredEntries_maxSize now c
  have hne1 : ∀ k' ∈ (RequestCacheM.removeExpiredEntries now c).keyOrder, k' ≠ "" :=
    fun k' hm => hne k' (removeExpiredEntries_keyOrder_subset now c hm)
  by_cases hhas : mapHas k (RequestCacheM.removeExpiredEntries now c).cache = true
  · rw [set_eq_of_has c k v ttl now hhas]
    show (mapInsert k ⟨v, now, ttl⟩ (RequestCacheM.removeExpiredEntries now c).cache).length ≤ c.maxSize
    rw [mapInsert_length_of_has _ hhas]
    exact hlen1
  · by_cases hlen : (RequestCacheM.removeExpiredEntries now c).cache.length ≥
        (RequestCacheM.removeExpiredEntries now c).maxSize
    · cases hO : (RequestCacheM.removeExpiredEntries now c).keyOrder with
      | nil =>
        exfalso
        have hkeys : (RequestCacheM.removeExpiredEntries now c).cache.map Prod.fst = [] := by
          have := h1.1
          rw [hO] at this
          exact this.eq_nil
        have hzero : (RequestCacheM.removeExpiredEntries now c).cache.length = 0 := by
          have := congrArg List.length hkeys
          simpa using this
        rw [hzero, hmax1] at hlen
        omega
      | cons oldest rest =>
        by_cases hoe : oldest = ""
        · exfalso
          refine hne1 "" ?_ rfl
          rw [hO, ← hoe]
          exact List.mem_cons_self _ _
        · rw [set_eq_of_not_has_evict c k v ttl now oldest rest hhas hlen hO hoe]
          show (mapInsert k ⟨v, now, ttl⟩
            (mapDelete oldest (RequestCacheM.removeExpiredEntries now c).cache)).length ≤ c.maxSize
          have hnone : mapLookup k (RequestCacheM.removeExpiredEntries now c).cache = none := by
            cases hlk : mapLookup k (RequestCacheM.removeExpiredEntries now c).cache with
            | none => rfl
            | some e => exact absurd (by simp [mapHas, hlk]) hhas
          have hnot3 : ¬ mapHas k
              (mapDelete oldest (RequestCacheM.removeExpiredEntries now c).cache) = true := by
            simp only [mapHas]
            rw [mapLookup_delete_of_none hnone oldest]
            simp
          rw [mapInsert_length_of_not_has _ hnot3]
          have homem : oldest ∈ (RequestCacheM.removeExpiredEntries now c).cache.map Prod.fst := by
            rw [h1.1.mem_iff, hO]
            exact List.mem_cons_self _ _
          rw [mapDelete_length_of_mem homem]
          have hpos : 1 ≤ (RequestCacheM.removeExpiredEntries now c).cache.length := by
            rw [hmax1] at hlen
            omega
          omega
    · rw [set_eq_of_not_has_small c k v ttl now hhas hlen]
      show (mapInsert k ⟨v, now, ttl⟩ (RequestCacheM.removeExpiredEntries now c).cache).length ≤ c.maxSize
      rw [mapInsert_length_of_not_has _ hhas]
      rw [hmax1] at hlen
      omega

theorem get_size_le {α : Type} (c : RequestCacheM α) (k : String) (now : Nat) :
    (c.get k now).2.cache.length ≤ c.cache.length := by
  cases hl : mapLookup k c.cache with
  | none =>
    rw [get_eq_of_none c k now hl]
  | some e =>
    by_cases he : RequestCacheM.isExpired now e = true
    · rw [get_eq_of_expired c k now hl he]
      exact mapDelete_length_le k c.cache
    · rw [get_eq_of_fresh c k now hl he]

theorem applyOp_size_le {α : Type} {c : RequestCacheM α} (h : CacheInv c)
    (hne : ∀ k' ∈ c.keyOrder, k' ≠ "") (hmax : 1 ≤ c.maxSize)
    (hsz : c.cache.length ≤ c.maxSize) (op : CacheOp α)
    (hop : ∀ k v ttl now, op = CacheOp.set k v ttl now → k ≠ "") :
    (applyOp c op).cache.length ≤ c.maxSize := by
  cases op with
  | set k v ttl now => exact set_size_le h hne hmax hsz k v ttl now
  | get k now => exact le_trans (get_size_le c k now) hsz
  | clear => simpa [applyOp, RequestCacheM.clear] using Nat.zero_le _
  | invalidate p => exact le_trans (foldl_del_length_le _ c) hsz

theorem applyOp_keyOrder_ne {α : Type} {c : RequestCacheM α} (h : CacheInv c)
    (hne : ∀ k' ∈ c.keyOrder, k' ≠ "") (op : CacheOp α)
    (hop : ∀ k v ttl now, op = CacheOp.set k v ttl now → k ≠ "") :
    ∀ k' ∈ (applyOp c op).keyOrder, k' ≠ "" := by
  cases op with
  | set k v ttl now => exact set_keyOrder_ne h hne k (hop k v ttl now rfl) v ttl now
  | get k now => exact get_keyOrder_ne h hne k now
  | clear => simp [applyOp, RequestCacheM.clear]
  | invalidate p => exact fun k' hm => hne k' (foldl_del_keyOrder_subset _ c hm)

theorem runOps_size_le {α : Type} (ops : List (CacheOp α)) :
    ∀ c : RequestCacheM α, CacheInv c → 1 ≤ c.maxSize →
      (∀ k' ∈ c.keyOrder, k' ≠ "") → c.cache.length ≤ c.maxSize →
      (∀ op ∈ ops, ∀ k v ttl now, op = CacheOp.set k v ttl now → k ≠ "") →
      CacheInv (runOps c ops) ∧ (runOps c ops).maxSize = c.maxSize ∧
      (∀ k' ∈ (runOps c ops).keyOrder, k' ≠ "") ∧
      (runOps c ops).cache.length ≤ c.maxSize := by
  induction ops with
  | nil =>
    intro c hInv hmax hne hsz _
    exact ⟨hInv, rfl, hne, hsz⟩
  | cons op rest ih =>
    intro c hInv hmax hne hsz hops
    have hmaxOp : (applyOp c op).maxSize = c.maxSize := applyOp_maxSize c op
    have hInv' : CacheInv (applyOp c op) := cacheInv_applyOp hInv op
    have hopk : ∀ k v ttl now, op = CacheOp.set k v ttl now → k ≠ "" :=
      hops op (List.mem_cons_self _ _)
    have hne' : ∀ k' ∈ (applyOp c op).keyOrder, k' ≠ "" :=
      applyOp_keyOrder_ne hInv hne op hopk
    have hsz' : (applyOp c op).cache.length ≤ (applyOp c op).maxSize := by
      rw [hmaxOp]
      exact applyOp_size_le hInv hne hmax hsz op hopk
    have hmax' : 1 ≤ (applyOp c op).maxSize := by
      rw [hmaxOp]
      exact hmax
    have hops' : ∀ op' ∈ rest, ∀ k v ttl now, op' = CacheOp.set k v ttl now → k ≠ "" :=
      fun op' hm => hops op' (List.mem_cons_of_mem _ hm)
    obtain ⟨a, b, d, e⟩ := ih (applyOp c op) hInv' hmax' hne' hsz' hops'
    refine ⟨a, ?_, d, ?_⟩
    · rw [show runOps c (op :: rest) = runOps (applyOp c op) rest from rfl, b, hmaxOp]
    · rw [show runOps c (op :: rest) = runOps (applyOp c op) rest from rfl]
      rw [hmaxOp] at e
      exact e

/-! ## Helper lemmas: filling an empty store with distinct fresh keys -/

theorem sweepKeys_id (now : Nat) (ks : List String) (c : RequestCacheM α)
    (h : ∀ k e, mapLookup k c.cache = some e →
      ¬ RequestCacheM.isExpired now e = true) :
    RequestCacheM.sweepKeys now ks c = c := by
  induction ks with
  | nil => rfl
  | cons k rest ih =>
    simp only [RequestCacheM.sweepKeys]
    cases hl : mapLookup k c.cache with
    | none => exact ih
    | some e => simpa [h k e hl] using ih

theorem fillEntries_fresh (ps : List (String × α)) (ttl now : Nat)
    (k : String) (e : CacheEntryM α)
    (hl : mapLookup k (fillEntries ps ttl now) = some e) :
    ¬ RequestCacheM.isExpired now e = true := by
  have hmem := mapLookup_mem hl
  simp only [fillEntries, List.mem_map] at hmem
  obtain ⟨p, _, hp⟩ := hmem
  have : e = ⟨p.2, now, ttl⟩ := (Prod.mk.injEq _ _ _ _ ▸ hp).2.symm ▸ rfl
  cases hp
  simp [RequestCacheM.isExpired]

theorem fillEntries_keys (ps : List (String × α)) (ttl now : Nat) :
    (fillEntries ps ttl now).map Prod.fst = ps.map Prod.fst := by
  simp [fillEntries]

theorem mapLookup_fillEntries_of_not_mem (ps : List (String × α)) (ttl now : Nat)
    (k : String) (hk : k ∉ ps.map Prod.fst) :
    mapLookup k (fillEntries ps ttl now) = none := by
  apply mapLookup_eq_none_of_not_mem
  rw [fillEntries_keys]
  exact hk

theorem mapLookup_fillEntries_of_mem (ps : List (String × α)) (ttl now : Nat)
    (hnd : (ps.map Prod.fst).Nodup) (k : String) (v : α) (hm : (k, v) ∈ ps) :
    mapLookup k (fillEntries ps ttl now) = some ⟨v, now, ttl⟩ := by
  induction ps with
  | nil => simp at hm
  | cons p rest ih =>
    simp only [List.map_cons, List.nodup_cons] at hnd
    rcases List.mem_cons.mp hm with h1 | h1
    · subst h1
      simp [fillEntries, mapLookup]
    · have hne : p.1 ≠ k := by
        intro hpk
        exact hnd.1 (hpk ▸ (List.mem_map.mpr ⟨(k, v), h1, rfl⟩))
      simp only [fillEntries, List.map_cons, mapLookup, if_neg hne]
      exact ih hnd.2 h1

theorem runOps_fill (ttl now : Nat) (ps : List (String × α)) (maxSize : Nat)
    (hnd : (ps.map Prod.fst).Nodup) (hlen : ps.length ≤ maxSize) :
    runOps (RequestCacheM.empty maxSize) (fillOps ps ttl now) =
      ⟨fillEntries ps ttl now, maxSize, ps.map Prod.fst⟩ := by
  induction ps using List.reverseRecOn with
  | nil => simp [runOps, fillOps, fillEntries, RequestCacheM.empty]
  | append_singleton qs q ih =>
    have hnd' : (qs.map Prod.fst).Nodup := by
      rw [List.map_append] at hnd
      exact (List.nodup_append.mp hnd).1
    have hlen' : qs.length ≤ maxSize := by
      rw [List.length_append] at hlen
      omega
    have hrun : runOps (RequestCacheM.empty maxSize) (fillOps qs ttl now) =
        ⟨fillEntries qs ttl now, maxSize, qs.map Prod.fst⟩ := ih hnd' hlen'
    have hsplit : fillOps (α := α) (qs ++ [q]) ttl now =
        fillOps qs ttl now ++ [CacheOp.set q.1 q.2 ttl now] := by
      simp [fillOps]
    rw [hsplit]
    have happ : runOps (RequestCacheM.empty maxSize)
        (fillOps qs ttl now ++ [CacheOp.set q.1 q.2 ttl now]) =
        applyOp (runOps (RequestCacheM.empty maxSize) (fillOps qs ttl now))
          (CacheOp.set q.1 q.2 ttl now) := by
      simp [runOps, List.foldl_append]
    rw [happ, hrun]
    show RequestCacheM.set ⟨fillEntries qs ttl now, maxSize, qs.map Prod.fst⟩
      q.1 q.2 ttl now = _
    set F : RequestCacheM α := ⟨fillEntries qs ttl now, maxSize, qs.map Prod.fst⟩
      with hF
    have hsweep : RequestCacheM.removeExpiredEntries now F = F := by
      apply sweepKeys_id
      intro k e hl
      exact fillEntries_fresh qs ttl now k e hl
    have hqnotin : q.1 ∉ qs.map Prod.fst := by
      rw [List.map_append] at hnd
      have := List.nodup_append.mp hnd
      intro hmem
      exact this.2.2 hmem (by simp)
    have hhas : ¬ mapHas q.1 (RequestCacheM.removeExpiredEntries now F).cache = true := by
      rw [hsweep]
      show ¬ mapHas q.1 F.cache = true
      simp only [mapHas, hF]
      rw [mapLookup_fillEntries_of_not_mem qs ttl now q.1 hqnotin]
      simp
    have hlenF : ¬ (RequestCacheM.removeExpiredEntries now F).cache.length ≥
        (RequestCacheM.removeExpiredEntries now F).maxSize := by
      rw [hsweep]
      show ¬ F.cache.length ≥ F.maxSize
      have : F.cache.length = qs.length := by
        simp [hF, fillEntries]
      rw [this]
      have hq1 : qs.length + 1 ≤ maxSize := by
        rw [List.length_append] at hlen
        simpa using hlen
      show ¬ qs.length ≥ maxSize
      omega
    rw [set_eq_of_not_has_small F q.1 q.2 ttl now hhas hlenF]
    rw [hsweep]
    have hins : mapInsert q.1 ⟨q.2, now, ttl⟩ F.cache =
        fillEntries (qs ++ [q]) ttl now := by
      rw [mapInsert_of_not_has F.cache (by
        simp only [mapHas, hF]
        rw [mapLookup_fillEntries_of_not_mem qs ttl now q.1 hqnotin]
        simp)]
      simp [hF, fillEntries]
    rw [hins]
    simp [hF]

/-! ## Helper lemmas: the retry loop -/

theorem executeGo_count_le {α : Type} (inst : InstanceM α)
    (vschema : Option (α → Except String α)) (cfg : RequestConfigM)
    (signal : ControllerState) (behavior : Nat → TransportCall α)
    (maxAttempts : Nat) :
    ∀ fuel attempt,
      (executeGo inst vschema cfg signal behavior maxAttempts fuel attempt).1 ≤ fuel := by
  intro fuel
  induction fuel with
  | zero => intro attempt; simp [executeGo]
  | succ f ih =>
    intro attempt
    simp only [executeGo]
    cases attemptOnce inst vschema cfg signal (behavior attempt) with
    | ok r => simp
    | error e =>
      by_cases hr : shouldRetry inst.retryConfig e attempt maxAttempts = true
      · simp only [hr, if_pos]
        have := ih (attempt + 1)
        show (executeGo inst vschema cfg signal behavior maxAttempts f (attempt + 1)).1 + 1 ≤ f + 1
        omega
      · simp only [Bool.not_eq_true] at hr
        simp [hr]

theorem shouldRetry_true_lt (rc : Option RetryConfigM) (e : JsError)
    (attempt maxAttempts : Nat)
    (h : shouldRetry rc e attempt maxAttempts = true) :
    attempt < maxAttempts - 1 := by
  by_contra hge
  unfold shouldRetry at h
  rw [if_pos (by omega)] at h
  exact Bool.false_ne_true h

theorem normalizeError_isFetchesError (e : JsError) :
    (normalizeError e).isFetchesError = true := by
  cases e <;> rfl

theorem executeGo_error_normalized {α : Type} (inst : InstanceM α)
    (vschema : Option (α → Except String α)) (cfg : RequestConfigM)
    (signal : ControllerState) (behavior : Nat → TransportCall α)
    (maxAttempts : Nat) :
    ∀ fuel attempt, fuel + attempt = maxAttempts → 1 ≤ fuel →
      ∀ e, (executeGo inst vschema cfg signal behavior maxAttempts fuel attempt).2.2 =
        .error e → ∃ e₀, e = normalizeError e₀ := by
  intro fuel
  induction fuel with
  | zero => intro attempt _ h; omega
  | succ f ih =>
    intro attempt hsum _ e
    simp only [executeGo]
    cases attemptOnce inst vschema cfg signal (behavior attempt) with
    | ok r => intro h; simp at h
    | error e₁ =>
      by_cases hr : shouldRetry inst.retryConfig e₁ attempt maxAttempts = true
      · simp only [hr, if_pos]
        intro h
        have hlt := shouldRetry_true_lt _ _ _ _ hr
        refine ih (attempt + 1) (by omega) (by omega) e ?_
        simpa using h
      · simp only [Bool.not_eq_true] at hr
        simp only [hr, Bool.false_eq_true, if_false]
        intro h
        simp only [Except.error.injEq] at h
        exact ⟨e₁, h.symm⟩

theorem executeGo_error_of_always {α : Type} (inst : InstanceM α)
    (vschema : Option (α → Except String α)) (cfg : RequestConfigM)
    (signal : ControllerState) (behavior : Nat → TransportCall α)
    (maxAttempts : Nat) (e : JsError)
    (h : ∀ n, attemptOnce inst vschema cfg signal (behavior n) = .error e) :
    ∀ fuel attempt, fuel + attempt = maxAttempts → 1 ≤ fuel →
      (executeGo inst vschema cfg signal behavior maxAttempts fuel attempt).2.2 =
        .error (normalizeError e) := by
  intro fuel
  induction fuel with
  | zero => intro attempt _ hf; omega
  | succ f ih =>
    intro attempt hsum _
    simp only [executeGo, h attempt]
    by_cases hr : shouldRetry inst.retryConfig e attempt maxAttempts = true
    · simp only [hr, if_pos]
      have hlt := shouldRetry_true_lt _ _ _ _ hr
      simpa using ih (attempt + 1) (by omega) (by omega)
    · simp only [Bool.not_eq_true] at hr
      simp [hr]

theorem set_lookup_self (c : RequestCacheM α) (k : String) (v : α)
    (ttl now : Nat) :
    mapLookup k (c.set k v ttl now).cache = some ⟨v, now, ttl⟩ := by
  show mapLookup k (mapInsert k ⟨v, now, ttl⟩ _) = some ⟨v, now, ttl⟩
  exact mapLookup_insert_self k _ _

/-! ## Claim C3: determinism and body-sensitivity of the cache key -/

/-- C3 counterexample: the cache key treats every falsy body as absent, so the
two differing bodies `0` and `false` (same method, same URL) produce the same
key, refuting "differing bodies must produce differing keys". -/
theorem c3_counterexample :
    getCacheKey "GET" "u" (some (JsData.num 0)) =
      getCacheKey "GET" "u" (some (JsData.bool false))
    ∧ JsData.num 0 ≠ JsData.bool false := by
  constructor
  · rfl
  · intro h
    cases h

/-- C3 (amended): the cache key is a deterministic function of
(method, resolved URL, serialized body) — and two requests with the same
method and URL whose bodies are both truthy with distinct `JSON.stringify`
serializations produce distinct keys; falsy (`0`, `''`, `false`) or absent
bodies all collapse to the empty serialization. -/
theorem c3_cacheKey_deterministic (m u : String) (d₁ d₂ : Option JsData)
    (a b : JsData) (hd₁ : d₁ = some a) (hd₂ : d₂ = some b)
    (ha : a.truthy = true) (hb : b.truthy = true)
    (hs : a.stringify ≠ b.stringify) :
    (d₁ = d₂ → getCacheKey m u d₁ = getCacheKey m u d₂)
    ∧ getCacheKey m u d₁ ≠ getCacheKey m u d₂ := by
  constructor
  · intro h
    rw [h]
  · subst hd₁
    subst hd₂
    simp only [getCacheKey, ha, hb, if_pos]
    intro h
    apply hs
    have hdata := congrArg String.data h
    simp only [String.data_append] at hdata
    have := List.append_cancel_left hdata
    exact String.ext this

theorem c3_cacheKey_deterministic_witness :
    (JsData.str "x").truthy = true ∧ (JsData.str "y").truthy = true
    ∧ (JsData.str "x").stringify ≠ (JsData.str "y").stringify
    ∧ getCacheKey "GET" "u" (some (JsData.str "x")) ≠
        getCacheKey "GET" "u" (some (JsData.str "y")) := by
  refine ⟨rfl, rfl, by decide, ?_⟩
  exact (c3_cacheKey_deterministic "GET" "u" _ _ (JsData.str "x") (JsData.str "y")
    rfl rfl rfl rfl (by decide)).2

/-! ## Claim C5: the retry budget is never exceeded -/

/-- C5: for every budget `maxAttempts ≥ 1`, `shouldRetry` returns false once
`attemptIndex ≥ maxAttempts - 1`, and the retry loop of `executeRequest`
never performs more transport attempts than the configured budget (which
counts the first attempt). -/
theorem c5_retry_budget (rc : Option RetryConfigM) (e : JsError)
    (attempt maxAttempts : Nat) (hmax : 1 ≤ maxAttempts)
    (hidx : maxAttempts - 1 ≤ attempt) :
    shouldRetry rc e attempt maxAttempts = false
    ∧ ∀ (α : Type) (inst : InstanceM α) (vschema : Option (α → Except String α))
        (cfg : RequestConfigM) (signal : ControllerState)
        (behavior : Nat → TransportCall α),
        maxAttemptsOf inst.retryConfig = maxAttempts →
        (executeRequest inst vschema cfg signal behavior).1 ≤ maxAttempts := by
  constructor
  · unfold shouldRetry
    rw [if_pos hidx]
  · intro α inst vschema cfg signal behavior hM
    rw [executeRequest, hM]
    exact executeGo_count_le inst vschema cfg signal behavior maxAttempts
      maxAttempts 0

theorem c5_retry_budget_witness :
    (1 : Nat) ≤ 2 ∧ (2 : Nat) - 1 ≤ 1
    ∧ shouldRetry (some ⟨2, Backoff.linear, 50, none, none⟩)
        (JsError.fetchesNetwork "boom") 1 2 = false
    ∧ (executeRequest
        (⟨none, 30000, true, RequestCacheM.empty 100,
          some ⟨2, Backoff.linear, 50, none, none⟩, [], [], [], []⟩ : InstanceM Nat)
        none ⟨some "u", some "GET", none, none, none, none, none, false, none⟩
        newController
        (fun _ => ⟨5, .error (.fetchesNetwork "boom")⟩)).1 ≤ 2 := by
  refine ⟨by decide, by decide, ?_, ?_⟩
  · exact (c5_retry_budget (some ⟨2, Backoff.linear, 50, none, none⟩)
      (JsError.fetchesNetwork "boom") 1 2 (by decide) (by decide)).1
  · exact (c5_retry_budget (some ⟨2, Backoff.linear, 50, none, none⟩)
      (JsError.fetchesNetwork "boom") 1 2 (by decide) (by decide)).2
      Nat _ none _ newController _ rfl

/-! ## Claim C6: the backoff-delay formula -/

/-- C6 counterexample: a configured `maxDelay` of `0` is falsy, so the delay
is not clamped — `delay` yields 100 where the claim's clamping formula
yields `min (100 * 2 ^ 0) 0 = 0`. -/
theorem c6_counterexample :
    delayFor ⟨3, Backoff.exponential, 100, some 0, none⟩ 0 = 100
    ∧ min (100 * 2 ^ 0) 0 = 0
    ∧ (100 : Nat) ≠ min (100 * 2 ^ 0) 0 := by
  refine ⟨rfl, rfl, by decide⟩

/-- C6 (amended): the backoff delay is `initialDelay * 2 ^ attemptIndex`
(exponential) or `initialDelay * (attemptIndex + 1)` (linear), clamped to
`maxDelay` whenever a **nonzero** `maxDelay` is configured (a zero `maxDelay`
is falsy and does not clamp); in particular with exponential backoff,
`initialDelay = 100`, `maxDelay = 1000`, the delays for attempts 0..4 are
100, 200, 400, 800, 1000. -/
theorem c6_backoff_delay (attempts d a m : Nat)
    (p : Option (JsError → Bool)) (hm : m ≠ 0) :
    (delayFor ⟨attempts, Backoff.exponential, d, none, p⟩ a = d * 2 ^ a)
    ∧ (delayFor ⟨attempts, Backoff.linear, d, none, p⟩ a = d * (a + 1))
    ∧ (delayFor ⟨attempts, Backoff.exponential, d, some m, p⟩ a =
        min (d * 2 ^ a) m)
    ∧ (delayFor ⟨attempts, Backoff.linear, d, some m, p⟩ a =
        min (d * (a + 1)) m)
    ∧ (delayFor ⟨attempts, Backoff.exponential, 100, some 1000, p⟩ 0 = 100
       ∧ delayFor ⟨attempts, Backoff.exponential, 100, some 1000, p⟩ 1 = 200
       ∧ delayFor ⟨attempts, Backoff.exponential, 100, some 1000, p⟩ 2 = 400
       ∧ delayFor ⟨attempts, Backoff.exponential, 100, some 1000, p⟩ 3 = 800
       ∧ delayFor ⟨attempts, Backoff.exponential, 100, some 1000, p⟩ 4 = 1000) := by
  refine ⟨rfl, rfl, ?_, ?_, ?_⟩
  · simp [delayFor, hm]
  · simp [delayFor, hm]
  · refine ⟨?_, ?_, ?_, ?_, ?_⟩ <;> simp [delayFor]

theorem c6_backoff_delay_witness :
    (1000 : Nat) ≠ 0
    ∧ delayFor ⟨3, Backoff.exponential, 100, some 1000, none⟩ 4 =
        min (100 * 2 ^ 4) 1000 := by
  refine ⟨by decide, ?_⟩
  exact (c6_backoff_delay 3 100 4 1000 none (by decide)).2.2.1

/-! ## Claim C10: the delay method is unreachable without a retry config -/

/-- C10: when no retry configuration is supplied, `maxAttempts` resolves to 1
and `shouldRetry` returns false for every error at every attempt, so the
retry loop never awaits a backoff delay — the `this.retryConfig!` non-null
assertion inside `delay` can never be reached with an undefined config. -/
theorem c10_delay_unreachable :
    (∀ (e : JsError) (attempt : Nat),
      shouldRetry none e attempt (maxAttemptsOf none) = false)
    ∧ ∀ (α : Type) (inst : InstanceM α) (vschema : Option (α → Except String α))
        (cfg : RequestConfigM) (signal : ControllerState)
        (behavior : Nat → TransportCall α),
        inst.retryConfig = none →
        (executeRequest inst vschema cfg signal behavior).2.1 = 0 := by
  constructor
  · intro e attempt
    show shouldRetry none e attempt 1 = false
    unfold shouldRetry
    rw [if_pos (by omega)]
  · intro α inst vschema cfg signal behavior hrc
    rw [executeRequest, hrc]
    show (executeGo inst vschema cfg signal behavior 1 1 0).2.1 = 0
    simp only [executeGo]
    cases attemptOnce inst vschema cfg signal (behavior 0) with
    | ok r => rfl
    | error e =>
      rw [hrc]
      have hsr : shouldRetry none e 0 1 = false := by
        unfold shouldRetry
        rw [if_pos (by omega)]
      simp [hsr]

theorem c10_delay_unreachable_witness :
    ((⟨none, 30000, true, RequestCacheM.empty 100, none, [], [], [], []⟩ :
        InstanceM Nat).retryConfig = none)
    ∧ (executeRequest
        (⟨none, 30000, true, RequestCacheM.empty 100, none, [], [], [], []⟩ : InstanceM Nat)
        none ⟨some "u", some "GET", none, none, none, none, none, false, none⟩
        newController
        (fun _ => ⟨5, .error (.fetchesNetwork "boom")⟩)).2.1 = 0 := by
  refine ⟨rfl, ?_⟩
  exact c10_delay_unreachable.2 Nat _ none _ newController _ rfl

/-! ## Claim C9: interceptor ids and ejection -/

/-- C9: `use` returns the insertion index as a stable id and appends a slot
(so ids are never reused — later registrations always get strictly larger
ids); `eject` never removes or renumbers slots; an ejected slot (both hooks
absent) is a no-op for the chain; concretely, three registrations yield ids
0, 1, 2, and after ejecting id 1 the remaining hooks still run in their
original relative registration order. -/
theorem c9_interceptor_ids :
    (∀ (slots : List ReqSlot) (s : ReqSlot),
      (interceptorUse slots s).1 = slots.length
      ∧ (interceptorUse slots s).2.length = slots.length + 1)
    ∧ (∀ (slots : List ReqSlot) (id : Nat),
        (interceptorEject slots id).length = slots.length)
    ∧ (∀ (pre post : List ReqSlot) (r : Bool) (c : RequestConfigM),
        applyRequestInterceptors (pre ++ ⟨none, r⟩ :: post) c =
          applyRequestInterceptors (pre ++ post) c)
    ∧ ((interceptorUse [] (markSlot "0")).1 = 0
       ∧ (interceptorUse (interceptorUse [] (markSlot "0")).2 (markSlot "1")).1 = 1
       ∧ (interceptorUse (interceptorUse (interceptorUse []
            (markSlot "0")).2 (markSlot "1")).2 (markSlot "2")).1 = 2
       ∧ interceptorEject (interceptorUse (interceptorUse (interceptorUse []
            (markSlot "0")).2 (markSlot "1")).2 (markSlot "2")).2 1 =
           [markSlot "0", ⟨none, false⟩, markSlot "2"]
       ∧ applyRequestInterceptors
           (interceptorEject (interceptorUse (interceptorUse (interceptorUse []
              (markSlot "0")).2 (markSlot "1")).2 (markSlot "2")).2 1)
           blankConfig = .ok { blankConfig with url := some "02" }) := by
  refine ⟨?_, ?_, ?_, rfl, rfl, rfl, rfl, rfl⟩
  · intro slots s
    exact ⟨rfl, by simp [interceptorUse]⟩
  · intro slots id
    unfold interceptorEject
    by_cases h : id < slots.length
    · rw [if_pos h, List.length_set]
    · rw [if_neg h]
  · intro pre post r c
    induction pre generalizing c with
    | nil => rfl
    | cons s rest ih =>
      show applyRequestInterceptors (s :: (rest ++ ⟨none, r⟩ :: post)) c =
        applyRequestInterceptors (s :: (rest ++ post)) c
      unfold applyRequestInterceptors
      cases hs : s.onFulfilled with
      | none =>
        simp only [hs]
        exact ih c
      | some f =>
        simp only [hs]
        cases hf : f c with
        | ok c' =>
          simp only [hf]
          exact ih c'
        | error e =>
          simp only [hf]

/-! ## Claim C1: the timeout timer never cancels the transport -/

/-- C1 (code bug): the `setTimeout` callback in `performRequest` aborts a
freshly created `AbortController` instead of the controller whose signal was
handed to `fetch`, and only dispatches a synthetic `abort` event — it leaves
the request's signal unaborted. So on timer expiry the transport is never
signalled and the call cannot fail with a `TimeoutError`: a GET with a 1 ms
timeout against a transport that settles only after 5000 ms simply returns
the slow response (one transport attempt, no error). -/
theorem c1_timeout_never_signalled :
    (timeoutCallback newController).1 = newController
    ∧ (timeoutCallback newController).2 = some ⟨true, "TimeoutError", "Timeout"⟩
    ∧ performRequest (α := Nat) newController 1 ⟨5000, .ok ⟨200, "OK", [], 7⟩⟩ =
        .ok ⟨200, "OK", [], 7⟩
    ∧ (request (α := Nat)
        ⟨none, 30000, true, RequestCacheM.empty 100, none, [], [], [], []⟩
        ⟨some "https://e/slow", some "GET", none, none, some 1, none, none,
          false, none⟩
        none (fun _ => ⟨5000, .ok ⟨200, "OK", [], 7⟩⟩) newController 0).result =
        .ok ⟨7, 200, "OK", [],
          ⟨some "https://e/slow", some "GET", none, none, some 1, some true,
            none, false, none⟩⟩
    ∧ (request (α := Nat)
        ⟨none, 30000, true, RequestCacheM.empty 100, none, [], [], [], []⟩
        ⟨some "https://e/slow", some "GET", none, none, some 1, none, none,
          false, none⟩
        none (fun _ => ⟨5000, .ok ⟨200, "OK", [], 7⟩⟩) newController 0
       ).transportAttempts = 1 := by
  exact ⟨rfl, rfl, rfl, by decide, by decide⟩

/-! ## Claim C4: cancellation has no dedicated error class -/

/-- C4 counterexample: `cancelRequest` aborts the registered controller; the
in-flight call tied to that signal then rejects, after `normalizeError`, with
`FetchesNetworkError('This operation was aborted')` — the code's class for
transport-level network failures, not a dedicated cancellation error. Indeed
`normalizeError` maps the cancellation `DOMException` and a plain network
`Error` with the same message to the **identical** error value. -/
theorem c4_counterexample :
    (cancelRequest [("id1", newController)] "id1").2 =
      some ⟨true, "AbortError", "This operation was aborted"⟩
    ∧ (executeRequest (α := Nat)
        ⟨none, 30000, true, RequestCacheM.empty 100, none, [], [], [], []⟩
        none ⟨some "u", some "GET", none, none, none, none, none, false, none⟩
        (abortCtrl newController)
        (fun _ => ⟨5, .ok ⟨200, "OK", [], 0⟩⟩)).2.2 =
        .error (.fetchesNetwork "This operation was aborted")
    ∧ normalizeError (.domException "AbortError" "This operation was aborted") =
        normalizeError (.plainError "This operation was aborted") := by
  exact ⟨rfl, rfl, rfl⟩

/-- C4 (amended): signaling a request's cancellation handle
(`cancelRequest`) aborts the registered controller and the in-flight call
rejects with `FetchesNetworkError` wrapping the abort message — the code
defines no dedicated `CancellationError` class. The rejection is still
distinct from every `FetchesTimeoutError`, and no raw transport-native error
type escapes the orchestrator: every error the retry loop raises is the
`normalizeError` image of some error, hence one of the four `Fetches*Error`
classes. -/
theorem c4_cancellation_normalized (α : Type) (inst : InstanceM α)
    (vschema : Option (α → Except String α)) (cfg : RequestConfigM)
    (behavior : Nat → TransportCall α) (reg : List (String × ControllerState))
    (id : String) (ctrl : ControllerState)
    (hmax : 1 ≤ maxAttemptsOf inst.retryConfig)
    (hreg : registryGet reg id = some ctrl) :
    (cancelRequest reg id).2 = some (abortCtrl ctrl)
    ∧ (executeRequest inst vschema cfg (abortCtrl ctrl) behavior).2.2 =
        .error (.fetchesNetwork "This operation was aborted")
    ∧ (∀ m, (JsError.fetchesNetwork "This operation was aborted") ≠
        .fetchesTimeout m)
    ∧ (∀ (signal : ControllerState) (e : JsError),
        (executeRequest inst vschema cfg signal behavior).2.2 = .error e →
        e.isFetchesError = true) := by
  have habort : ∀ (signal : ControllerState), signal.aborted = true →
      signal.reasonName = "AbortError" →
      signal.reasonMsg = "This operation was aborted" →
      ∀ n, attemptOnce inst vschema cfg signal (behavior n) =
        .error (.domException "AbortError" "This operation was aborted") := by
    intro signal ha hn hm n
    unfold attemptOnce
    unfold performRequest
    simp [ha, hn, hm, performRequestCatch]
  refine ⟨?_, ?_, ?_, ?_⟩
  · rw [cancelRequest, hreg]
  · rw [executeRequest]
    have := executeGo_error_of_always inst vschema cfg (abortCtrl ctrl) behavior
      (maxAttemptsOf inst.retryConfig)
      (.domException "AbortError" "This operation was aborted")
      (habort (abortCtrl ctrl) rfl rfl rfl)
      (maxAttemptsOf inst.retryConfig) 0 (by omega) hmax
    rw [this]
    rfl
  · intro m h
    cases h
  · intro signal e h
    rw [executeRequest] at h
    obtain ⟨e₀, he₀⟩ := executeGo_error_normalized inst vschema cfg signal
      behavior (maxAttemptsOf inst.retryConfig) (maxAttemptsOf inst.retryConfig)
      0 (by omega) hmax e h
    rw [he₀]
    exact normalizeError_isFetchesError e₀

theorem c4_cancellation_normalized_witness :
    1 ≤ maxAttemptsOf (none : Option RetryConfigM)
    ∧ registryGet [("id1", newController)] "id1" = some newController
    ∧ (cancelRequest [("id1", newController)] "id1").2 =
        some (abortCtrl newController)
    ∧ (executeRequest (α := Nat)
        ⟨none, 30000, true, RequestCacheM.empty 100, none, [], [], [], []⟩
        none ⟨some "u", some "GET", none, none, none, none, none, false, none⟩
        (abortCtrl newController)
        (fun _ => ⟨5, .ok ⟨200, "OK", [], 0⟩⟩)).2.2 =
        .error (.fetchesNetwork "This operation was aborted") := by
  refine ⟨by decide, rfl, ?_, ?_⟩
  · exact (c4_cancellation_normalized Nat
      ⟨none, 30000, true, RequestCacheM.empty 100, none, [], [], [], []⟩
      none ⟨some "u", some "GET", none, none, none, none, none, false, none⟩
      (fun _ => ⟨5, .ok ⟨200, "OK", [], 0⟩⟩)
      [("id1", newController)] "id1" newController (by decide) rfl).1
  · exact (c4_cancellation_normalized Nat
      ⟨none, 30000, true, RequestCacheM.empty 100, none, [], [], [], []⟩
      none ⟨some "u", some "GET", none, none, none, none, none, false, none⟩
      (fun _ => ⟨5, .ok ⟨200, "OK", [], 0⟩⟩)
      [("id1", newController)] "id1" newController (by decide) rfl).2.1

/-! ## Claim C2: the cache participates only in GET calls -/

/-- C2 counterexample: a HEAD call with the envelope already cached under its
exact cache key (and no bypass) still performs a transport attempt and
returns the transport's response, leaving the cache untouched — the code's
cache branch tests `method === 'GET'` only, so HEAD neither reads nor writes
the cache. -/
theorem c2_counterexample :
    mapLookup "HEAD:https://e/x:"
      (⟨[("HEAD:https://e/x:", ⟨⟨1, 200, "OK", [], blankConfig⟩, 50, 300000⟩)],
        100, ["HEAD:https://e/x:"]⟩ :
          RequestCacheM (FetchesResponseM Nat)).cache =
      some ⟨⟨1, 200, "OK", [], blankConfig⟩, 50, 300000⟩
    ∧ (request (α := Nat)
        ⟨none, 30000, true,
          ⟨[("HEAD:https://e/x:", ⟨⟨1, 200, "OK", [], blankConfig⟩, 50, 300000⟩)],
            100, ["HEAD:https://e/x:"]⟩, none, [], [], [], []⟩
        ⟨some "https://e/x", some "HEAD", none, none, none, none, none, false, none⟩
        none (fun _ => ⟨5, .ok ⟨200, "OK", [], 9⟩⟩) newController 60
       ).transportAttempts = 1
    ∧ (request (α := Nat)
        ⟨none, 30000, true,
          ⟨[("HEAD:https://e/x:", ⟨⟨1, 200, "OK", [], blankConfig⟩, 50, 300000⟩)],
            100, ["HEAD:https://e/x:"]⟩, none, [], [], [], []⟩
        ⟨some "https://e/x", some "HEAD", none, none, none, none, none, false, none⟩
        none (fun _ => ⟨5, .ok ⟨200, "OK", [], 9⟩⟩) newController 60
       ).result =
        .ok ⟨9, 200, "OK", [],
          ⟨some "https://e/x", some "HEAD", none, none, some 30000, some true,
            none, false, none⟩⟩
    ∧ (request (α := Nat)
        ⟨none, 30000, true,
          ⟨[("HEAD:https://e/x:", ⟨⟨1, 200, "OK", [], blankConfig⟩, 50, 300000⟩)],
            100, ["HEAD:https://e/x:"]⟩, none, [], [], [], []⟩
        ⟨some "https://e/x", some "HEAD", none, none, none, none, none, false, none⟩
        none (fun _ => ⟨5, .ok ⟨200, "OK", [], 9⟩⟩) newController 60
       ).cacheAfter =
        ⟨[("HEAD:https://e/x:", ⟨⟨1, 200, "OK", [], blankConfig⟩, 50, 300000⟩)],
          100, ["HEAD:https://e/x:"]⟩
    ∧ (⟨9, 200, "OK", [],
        ⟨some "https://e/x", some "HEAD", none, none, some 30000, some true,
          none, false, none⟩⟩ : FetchesResponseM Nat) ≠
        ⟨1, 200, "OK", [], blankConfig⟩ := by
  exact ⟨rfl, by decide, by decide, by decide, by decide⟩

/-- C2 (amended): for every call whose post-interceptor method resolves to
`GET` — not HEAD: the code's branch checks `method === 'GET'` only — with the
cache not bypassed, the orchestrator consults the cache before any transport
attempt: on a hit it returns the cached envelope with zero transport
attempts, and on a miss followed by a successful retry loop it returns the
transport envelope and stores it under the call's cache key with the
resolved lifetime `cacheTime ?? 300000`. -/
theorem c2_get_cache (α : Type) (inst : InstanceM α) (cfg : RequestConfigM)
    (vschema : Option (α → Except String α)) (behavior : Nat → TransportCall α)
    (signal : ControllerState) (now : Nat) (fc : RequestConfigM)
    (hfc : applyRequestInterceptors inst.reqInterceptors (mergeConfig inst cfg) =
      .ok fc)
    (hm : jsToUpper (fc.method.getD "GET") = "GET")
    (hs : fc.skipCache = false) :
    (∀ (v : FetchesResponseM α) (c' : RequestCacheM (FetchesResponseM α)),
      inst.cache.get (getCacheKey "GET"
          (buildUrl (fc.url.getD "") fc.baseURL inst.baseURL) fc.data) now =
        (some v, c') →
      request inst cfg vschema behavior signal now = ⟨.ok v, 0, 0, c'⟩)
    ∧ (∀ (c' : RequestCacheM (FetchesResponseM α)) (n d : Nat)
        (resp : FetchesResponseM α),
        inst.cache.get (getCacheKey "GET"
            (buildUrl (fc.url.getD "") fc.baseURL inst.baseURL) fc.data) now =
          (none, c') →
        executeRequest inst vschema fc signal behavior = (n, d, .ok resp) →
        request inst cfg vschema behavior signal now =
          ⟨.ok resp, n, d,
            c'.set (getCacheKey "GET"
                (buildUrl (fc.url.getD "") fc.baseURL inst.baseURL) fc.data)
              resp (fc.cacheTime.getD 300000) now⟩
        ∧ mapLookup (getCacheKey "GET"
              (buildUrl (fc.url.getD "") fc.baseURL inst.baseURL) fc.data)
            (request inst cfg vschema behavior signal now).cacheAfter.cache =
            some ⟨resp, now, fc.cacheTime.getD 300000⟩) := by
  have hreq : request inst cfg vschema behavior signal now =
      (match inst.cache.get (getCacheKey "GET"
          (buildUrl (fc.url.getD "") fc.baseURL inst.baseURL) fc.data) now with
       | (some v, c') => ⟨.ok v, 0, 0, c'⟩
       | (none, c') =>
         let r := executeRequest inst vschema fc signal behavior
         match r.2.2 with
         | .ok resp =>
           ⟨.ok resp, r.1, r.2.1,
             c'.set (getCacheKey "GET"
                 (buildUrl (fc.url.getD "") fc.baseURL inst.baseURL) fc.data)
               resp (fc.cacheTime.getD 300000) now⟩
         | .error e => ⟨.error e, r.1, r.2.1, c'⟩) := by
    unfold request
    rw [hfc]
    simp only [hm, hs]
    rfl
  constructor
  · intro v c' hget
    rw [hreq, hget]
  · intro c' n d resp hget hexec
    have hval : request inst cfg vschema behavior signal now =
        ⟨.ok resp, n, d,
          c'.set (getCacheKey "GET"
              (buildUrl (fc.url.getD "") fc.baseURL inst.baseURL) fc.data)
            resp (fc.cacheTime.getD 300000) now⟩ := by
      rw [hreq, hget]
      simp only [hexec]
    refine ⟨hval, ?_⟩
    rw [hval]
    exact set_lookup_self c' _ resp _ now

theorem c2_get_cache_witness :
    applyRequestInterceptors ([] : List ReqSlot)
      (mergeConfig
        (⟨none, 30000, true,
          ⟨[("GET:https://e/x:", ⟨⟨1, 200, "OK", [], blankConfig⟩, 50, 300000⟩)],
            100, ["GET:https://e/x:"]⟩, none, [], [], [], []⟩ : InstanceM Nat)
        ⟨some "https://e/x", some "GET", none, none, none, none, none, false, none⟩) =
      .ok ⟨some "https://e/x", some "GET", none, none, some 30000, some true,
        none, false, none⟩
    ∧ jsToUpper "GET" = "GET"
    ∧ (⟨[("GET:https://e/x:", ⟨⟨1, 200, "OK", [], blankConfig⟩, 50, 300000⟩)],
          100, ["GET:https://e/x:"]⟩ :
            RequestCacheM (FetchesResponseM Nat)).get "GET:https://e/x:" 60 =
        (some ⟨1, 200, "OK", [], blankConfig⟩,
          ⟨[("GET:https://e/x:", ⟨⟨1, 200, "OK", [], blankConfig⟩, 50, 300000⟩)],
            100, ["GET:https://e/x:"]⟩)
    ∧ request (α := Nat)
        (⟨none, 30000, true,
          ⟨[("GET:https://e/x:", ⟨⟨1, 200, "OK", [], blankConfig⟩, 50, 300000⟩)],
            100, ["GET:https://e/x:"]⟩, none, [], [], [], []⟩ : InstanceM Nat)
        ⟨some "https://e/x", some "GET", none, none, none, none, none, false, none⟩
        none (fun _ => ⟨5, .ok ⟨200, "OK", [], 9⟩⟩) newController 60 =
        ⟨.ok ⟨1, 200, "OK", [], blankConfig⟩, 0, 0,
          ⟨[("GET:https://e/x:", ⟨⟨1, 200, "OK", [], blankConfig⟩, 50, 300000⟩)],
            100, ["GET:https://e/x:"]⟩⟩ := by
  refine ⟨by decide, by decide, by decide, ?_⟩
  exact (c2_get_cache Nat
    (⟨none, 30000, true,
      ⟨[("GET:https://e/x:", ⟨⟨1, 200, "OK", [], blankConfig⟩, 50, 300000⟩)],
        100, ["GET:https://e/x:"]⟩, none, [], [], [], []⟩ : InstanceM Nat)
    ⟨some "https://e/x", some "GET", none, none, none, none, none, false, none⟩
    none (fun _ => ⟨5, .ok ⟨200, "OK", [], 9⟩⟩) newController 60
    ⟨some "https://e/x", some "GET", none, none, some 30000, some true,
      none, false, none⟩
    (by decide) (by decide) rfl).1
    ⟨1, 200, "OK", [], blankConfig⟩
    ⟨[("GET:https://e/x:", ⟨⟨1, 200, "OK", [], blankConfig⟩, 50, 300000⟩)],
      100, ["GET:https://e/x:"]⟩
    (by decide)

/-! ## Claim C8: capacity bound and LRU eviction -/

theorem set_eq_evict_of_fresh (c : RequestCacheM α) (k : String) (v : α)
    (ttl now : Nat) (oldest : String) (rest : List String)
    (hfresh : ∀ k' e, mapLookup k' c.cache = some e →
      ¬ RequestCacheM.isExpired now e = true)
    (hhasn : mapLookup k c.cache = none)
    (hlen : c.cache.length ≥ c.maxSize)
    (hO : c.keyOrder = oldest :: rest)
    (hoe : ¬ oldest = "") :
    c.set k v ttl now =
      ⟨mapInsert k ⟨v, now, ttl⟩ (mapDelete oldest c.cache), c.maxSize,
        rest ++ [k]⟩ := by
  have hsw : RequestCacheM.removeExpiredEntries now c = c :=
    sweepKeys_id now _ c hfresh
  have h1 := set_eq_of_not_has_evict c k v ttl now oldest rest
    (by rw [hsw]; simp [mapHas, hhasn]) (by rw [hsw]; exact hlen)
    (by rw [hsw]; exact hO) hoe
  rw [h1, hsw]

/-- C8 counterexample: three edge cases refuting the claim as stated. With
`maxSize = 0` a single `set` leaves 1 entry (the size bound fails); with an
empty-string key (`maxSize = 1`) the `if (oldestKey)` truthiness guard skips
eviction and the store grows to 2 entries; and with `maxSize = 1` a key that
was just read with `get` is still the next eviction victim — a read does not
protect the sole entry. -/
theorem c8_counterexample :
    ((RequestCacheM.empty (α := Nat) 0).set "a" 1 10 100).size = 1
    ∧ (((RequestCacheM.empty (α := Nat) 1).set "" 1 10 100).set
        "a" 2 10 100).size = 2
    ∧ mapLookup "a" ((((RequestCacheM.empty (α := Nat) 1).set "a" 1 10 100).get
        "a" 100).2.set "b" 2 10 100).cache = none := by
  exact ⟨by decide, by decide, by decide⟩

/-- C8 (amended): for every configured capacity `maxSize ≥ 1` and sequences
whose `set` keys are non-empty strings, the store never exceeds `maxSize`
entries, and eviction under pressure removes the least-recently-used key
first (recency updating on write and on successful read): filling the empty
store to capacity and inserting one further distinct key evicts exactly the
first-inserted key, and — when the store holds at least two entries —
reading a key with `get` protects it, making the second-oldest key the next
eviction victim instead. (With `maxSize = 0`, the empty-string key, or a
single-entry store, the claim fails as stated: see the counterexample.) -/
theorem c8_lru_eviction (α : Type) (maxSize : Nat) (hmax : 1 ≤ maxSize)
    (ops : List (CacheOp α))
    (hops : ∀ op ∈ ops, ∀ k v ttl now, op = CacheOp.set k v ttl now → k ≠ "") :
    ((runOps (RequestCacheM.empty maxSize) ops).size ≤ maxSize)
    ∧ (∀ (k₀ : String) (v₀ : α) (prest : List (String × α)) (k' : String)
         (v' : α) (ttl now : Nat),
        ((k₀, v₀) :: prest).length = maxSize →
        ((((k₀, v₀) :: prest).map Prod.fst) ++ [k']).Nodup →
        (∀ k ∈ (((k₀, v₀) :: prest).map Prod.fst) ++ [k'], k ≠ "") →
        mapLookup k₀ ((runOps (RequestCacheM.empty maxSize)
            (fillOps ((k₀, v₀) :: prest) ttl now)).set k' v' ttl now).cache =
          none
        ∧ (∀ p ∈ prest, mapLookup p.1 ((runOps (RequestCacheM.empty maxSize)
            (fillOps ((k₀, v₀) :: prest) ttl now)).set k' v' ttl now).cache =
            some ⟨p.2, now, ttl⟩)
        ∧ mapLookup k' ((runOps (RequestCacheM.empty maxSize)
            (fillOps ((k₀, v₀) :: prest) ttl now)).set k' v' ttl now).cache =
            some ⟨v', now, ttl⟩)
    ∧ (∀ (k₀ : String) (v₀ : α) (k₁ : String) (v₁ : α)
         (prest : List (String × α)) (k'' : String) (v'' : α) (ttl now : Nat),
        ((k₀, v₀) :: (k₁, v₁) :: prest).length = maxSize →
        ((((k₀, v₀) :: (k₁, v₁) :: prest).map Prod.fst) ++ [k'']).Nodup →
        (∀ k ∈ (((k₀, v₀) :: (k₁, v₁) :: prest).map Prod.fst) ++ [k''], k ≠ "") →
        mapLookup k₀ (((runOps (RequestCacheM.empty maxSize)
            (fillOps ((k₀, v₀) :: (k₁, v₁) :: prest) ttl now)).get k₀ now).2.set
            k'' v'' ttl now).cache = some ⟨v₀, now, ttl⟩
        ∧ mapLookup k₁ (((runOps (RequestCacheM.empty maxSize)
            (fillOps ((k₀, v₀) :: (k₁, v₁) :: prest) ttl now)).get k₀ now).2.set
            k'' v'' ttl now).cache = none) := by
  refine ⟨?_, ?_, ?_⟩
  · have h := runOps_size_le ops (RequestCacheM.empty maxSize)
      (cacheInv_empty maxSize) hmax (by simp [RequestCacheM.empty])
      (by simp [RequestCacheM.empty]) hops
    exact h.2.2.2
  · intro k₀ v₀ prest k' v' ttl now hlenEq hnd hne
    set ps : List (String × α) := (k₀, v₀) :: prest with hps
    have hndps : (ps.map Prod.fst).Nodup := (List.nodup_append.mp hnd).1
    have hfill : runOps (RequestCacheM.empty maxSize) (fillOps ps ttl now) =
        ⟨fillEntries ps ttl now, maxSize, ps.map Prod.fst⟩ :=
      runOps_fill ttl now ps maxSize hndps (le_of_eq hlenEq)
    rw [hfill]
    have hk' : k' ∉ ps.map Prod.fst := by
      have hd := (List.nodup_append.mp hnd).2.2
      intro hmem
      exact hd hmem (by simp)
    have hset : RequestCacheM.set ⟨fillEntries ps ttl now, maxSize, ps.map Prod.fst⟩
        k' v' ttl now =
        ⟨mapInsert k' ⟨v', now, ttl⟩ (mapDelete k₀ (fillEntries ps ttl now)),
          maxSize, prest.map Prod.fst ++ [k']⟩ := by
      refine set_eq_evict_of_fresh _ k' v' ttl now k₀ (prest.map Prod.fst)
        (fun k' e hl => fillEntries_fresh ps ttl now k' e hl)
        (mapLookup_fillEntries_of_not_mem ps ttl now k' hk') ?_ ?_ ?_
      · show (fillEntries ps ttl now).length ≥ maxSize
        have hlf : (fillEntries ps ttl now).length = ps.length := by
          simp [fillEntries]
        rw [hlf]
        omega
      · simp [hps, fillEntries]
      · exact hne k₀ (by simp [hps])
    rw [hset]
    have hdel : mapDelete k₀ (fillEntries ps ttl now) =
        fillEntries prest ttl now := by
      simp [hps, fillEntries, mapDelete]
    rw [hdel]
    have hk'rest : k' ∉ prest.map Prod.fst := by
      intro hmem
      exact hk' (by simp [hps, hmem])
    have hins : mapInsert k' ⟨v', now, ttl⟩ (fillEntries prest ttl now) =
        fillEntries prest ttl now ++ [(k', ⟨v', now, ttl⟩)] := by
      refine mapInsert_of_not_has _ ?_ _
      simp only [mapHas]
      rw [mapLookup_fillEntries_of_not_mem prest ttl now k' hk'rest]
      simp
    rw [hins]
    have hndrest : (prest.map Prod.fst).Nodup := by
      have := hndps
      rw [hps] at this
      simp only [List.map_cons, List.nodup_cons] at this
      exact this.2
    have hk₀rest : k₀ ∉ prest.map Prod.fst := by
      have := hndps
      rw [hps] at this
      simp only [List.map_cons, List.nodup_cons] at this
      exact this.1
    have hk₀k' : k' ≠ k₀ := by
      intro h
      exact hk' (by simp [hps, h])
    refine ⟨?_, ?_, ?_⟩
    · rw [mapLookup_append]
      rw [mapLookup_fillEntries_of_not_mem prest ttl now k₀ hk₀rest]
      simp [mapLookup, hk₀k']
    · intro p hp
      rw [mapLookup_append]
      rw [mapLookup_fillEntries_of_mem prest ttl now hndrest p.1 p.2 hp]
    · rw [mapLookup_append]
      rw [mapLookup_fillEntries_of_not_mem prest ttl now k' hk'rest]
      simp [mapLookup]
  · intro k₀ v₀ k₁ v₁ prest k'' v'' ttl now hlenEq hnd hne
    set ps : List (String × α) := (k₀, v₀) :: (k₁, v₁) :: prest with hps
    have hndps : (ps.map Prod.fst).Nodup := (List.nodup_append.mp hnd).1
    have hfill : runOps (RequestCacheM.empty maxSize) (fillOps ps ttl now) =
        ⟨fillEntries ps ttl now, maxSize, ps.map Prod.fst⟩ :=
      runOps_fill ttl now ps maxSize hndps (le_of_eq hlenEq)
    rw [hfill]
    have hlook₀ : mapLookup k₀ (fillEntries ps ttl now) =
        some ⟨v₀, now, ttl⟩ :=
      mapLookup_fillEntries_of_mem ps ttl now hndps k₀ v₀ (by simp [hps])
    have hget : RequestCacheM.get
        ⟨fillEntries ps ttl now, maxSize, ps.map Prod.fst⟩ k₀ now =
        (some v₀, ⟨fillEntries ps ttl now, maxSize,
          orderErase k₀ (ps.map Prod.fst) ++ [k₀]⟩) := by
      rw [get_eq_of_fresh _ k₀ now hlook₀ (by simp [RequestCacheM.isExpired])]
    rw [hget]
    have hOrd : orderErase k₀ (ps.map Prod.fst) ++ [k₀] =
        k₁ :: (prest.map Prod.fst ++ [k₀]) := by
      simp [hps, orderErase]
    have hk'' : k'' ∉ ps.map Prod.fst := by
      have hd := (List.nodup_append.mp hnd).2.2
      intro hmem
      exact hd hmem (by simp)
    have hset : RequestCacheM.set
        ⟨fillEntries ps ttl now, maxSize, orderErase k₀ (ps.map Prod.fst) ++ [k₀]⟩
        k'' v'' ttl now =
        ⟨mapInsert k'' ⟨v'', now, ttl⟩ (mapDelete k₁ (fillEntries ps ttl now)),
          maxSize, (prest.map Prod.fst ++ [k₀]) ++ [k'']⟩ := by
      refine set_eq_evict_of_fresh _ k'' v'' ttl now k₁
        (prest.map Prod.fst ++ [k₀])
        (fun kk e hl => fillEntries_fresh ps ttl now kk e hl)
        (mapLookup_fillEntries_of_not_mem ps ttl now k'' hk'') ?_ ?_ ?_
      · show (fillEntries ps ttl now).length ≥ maxSize
        have hlf : (fillEntries ps ttl now).length = ps.length := by
          simp [fillEntries]
        rw [hlf]
        omega
      · show orderErase k₀ (ps.map Prod.fst) ++ [k₀] = _
        rw [hOrd]
      · exact hne k₁ (by simp [hps])
    rw [hset]
    have hk₀k₁ : k₀ ≠ k₁ := by
      have := hndps
      rw [hps] at this
      simp only [List.map_cons, List.nodup_cons, List.mem_cons] at this
      intro h
      exact this.1 (Or.inl h)
    have hk₁rest : k₁ ∉ prest.map Prod.fst := by
      have := hndps
      rw [hps] at this
      simp only [List.map_cons, List.nodup_cons] at this
      exact this.2.1
    have hdel : mapDelete k₁ (fillEntries ps ttl now) =
        (k₀, ⟨v₀, now, ttl⟩) :: fillEntries prest ttl now := by
      simp [hps, fillEntries, mapDelete, hk₀k₁]
    rw [hdel]
    have hk''ne₀ : k'' ≠ k₀ := by
      intro h
      exact hk'' (by simp [hps, h])
    have hk''ne₁ : k'' ≠ k₁ := by
      intro h
      exact hk'' (by simp [hps, h])
    have hk''rest : k'' ∉ prest.map Prod.fst := by
      intro hmem
      exact hk'' (by simp [hps, hmem])
    have hins : mapInsert k'' ⟨v'', now, ttl⟩
        ((k₀, ⟨v₀, now, ttl⟩) :: fillEntries prest ttl now) =
        ((k₀, ⟨v₀, now, ttl⟩) :: fillEntries prest ttl now) ++
          [(k'', ⟨v'', now, ttl⟩)] := by
      refine mapInsert_of_not_has _ ?_ _
      simp only [mapHas, mapLookup, if_neg (Ne.symm hk''ne₀)]
      rw [mapLookup_fillEntries_of_not_mem prest ttl now k'' hk''rest]
      simp
    rw [hins]
    constructor
    · rw [mapLookup_append]
      simp [mapLookup]
    · rw [mapLookup_append]
      have h1 : mapLookup k₁
          ((k₀, ⟨v₀, now, ttl⟩) :: fillEntries prest ttl now) = none := by
        simp only [mapLookup, if_neg hk₀k₁]
        exact mapLookup_fillEntries_of_not_mem prest ttl now k₁ hk₁rest
      rw [h1]
      simp [mapLookup, hk''ne₁]

theorem c8_lru_eviction_witness :
    ((runOps (RequestCacheM.empty 2)
        [CacheOp.set "a" (1 : Nat) 10 100, CacheOp.set "b" 2 10 100,
         CacheOp.set "c" 3 10 100]).size ≤ 2)
    ∧ (mapLookup "a" ((runOps (RequestCacheM.empty 2)
          (fillOps [("a", (1 : Nat)), ("b", 2)] 10 100)).set "c" 3 10 100).cache =
        none)
    ∧ (mapLookup "b" ((runOps (RequestCacheM.empty 2)
          (fillOps [("a", (1 : Nat)), ("b", 2)] 10 100)).set "c" 3 10 100).cache =
        some ⟨2, 100, 10⟩)
    ∧ (mapLookup "c" ((runOps (RequestCacheM.empty 2)
          (fillOps [("a", (1 : Nat)), ("b", 2)] 10 100)).set "c" 3 10 100).cache =
        some ⟨3, 100, 10⟩)
    ∧ (mapLookup "a" (((runOps (RequestCacheM.empty 2)
          (fillOps [("a", (1 : Nat)), ("b", 2)] 10 100)).get "a" 100).2.set
          "c" 3 10 100).cache = some ⟨1, 100, 10⟩)
    ∧ (mapLookup "b" (((runOps (RequestCacheM.empty 2)
          (fillOps [("a", (1 : Nat)), ("b", 2)] 10 100)).get "a" 100).2.set
          "c" 3 10 100).cache = none) := by
  have hops : ∀ op ∈ [CacheOp.set "a" (1 : Nat) 10 100, CacheOp.set "b" 2 10 100,
      CacheOp.set "c" 3 10 100], ∀ k v ttl now,
      op = CacheOp.set k v ttl now → k ≠ "" := by
    intro op hop k v ttl now heq
    simp only [List.mem_cons, List.not_mem_nil, or_false] at hop
    rcases hop with h | h | h <;> subst h <;> cases heq <;> decide
  have hmain := c8_lru_eviction Nat 2 (by decide)
    [CacheOp.set "a" (1 : Nat) 10 100, CacheOp.set "b" 2 10 100,
     CacheOp.set "c" 3 10 100] hops
  have h2 := hmain.2.1 "a" 1 [("b", 2)] "c" 3 10 100 rfl (by decide) (by decide)
  have h3 := hmain.2.2 "a" 1 "b" 2 [] "c" 3 10 100 rfl (by decide) (by decide)
  refine ⟨hmain.1, h2.1, ?_, h2.2.2, h3.1, h3.2⟩
  exact h2.2.1 ("b", 2) (by simp)

/-! ## Claim C7: helper lemmas for the set/get trace semantics -/

theorem keyRel_mono {α : Type} (φ : Option (α × Nat × Nat)) (k : String)
    (c : RequestCacheM α) (t t' : Nat) (h : KeyRel φ k c t) (ht : t ≤ t') :
    KeyRel φ k c t' := by
  unfold KeyRel at h ⊢
  cases φ with
  | none => exact h
  | some p =>
    obtain ⟨v, ttl, tw⟩ := p
    rcases h with ⟨h1, h2⟩ | ⟨h1, h2, h3⟩
    · exact Or.inl ⟨h1, le_trans h2 ht⟩
    · refine Or.inr ⟨h1, le_trans h2 ht, ?_⟩
      have := Nat.sub_le_sub_right ht tw
      omega

theorem keyRel_of_lookup_eq {α : Type} (φ : Option (α × Nat × Nat))
    (k : String) (c c' : RequestCacheM α) (t : Nat)
    (hl : mapLookup k c'.cache = mapLookup k c.cache) (h : KeyRel φ k c t) :
    KeyRel φ k c' t := by
  unfold KeyRel at h ⊢
  cases φ with
  | none => rw [hl]; exact h
  | some p =>
    obtain ⟨v, ttl, tw⟩ := p
    rcases h with ⟨h1, h2⟩ | ⟨h1, h2, h3⟩
    · exact Or.inl ⟨by rw [hl, h1], h2⟩
    · exact Or.inr ⟨by rw [hl, h1], h2, h3⟩

theorem endTime_le {α : Type} (ops : List (CacheOp α)) :
    ∀ (tLast now : Nat), tLast ≤ now → (∀ op ∈ ops, op.timeOf ≤ now) →
      endTime tLast ops ≤ now := by
  induction ops with
  | nil => intro tLast now h _; simpa [endTime] using h
  | cons op rest ih =>
    intro tLast now h hops
    show endTime op.timeOf rest ≤ now
    exact ih op.timeOf now (hops op (List.mem_cons_self _ _))
      (fun o ho => hops o (List.mem_cons_of_mem _ ho))

theorem set_no_evict_cache {α : Type} {c : RequestCacheM α} (hInv : CacheInv c)
    (S : Finset String) (hS : S.card ≤ c.maxSize)
    (hsub : ∀ k, (mapLookup k c.cache).isSome = true → k ∈ S)
    (k₂ : String) (hk₂ : k₂ ∈ S) (v₂ : α) (ttl₂ t₂ : Nat) :
    (c.set k₂ v₂ ttl₂ t₂).cache =
      mapInsert k₂ ⟨v₂, t₂, ttl₂⟩
        (RequestCacheM.removeExpiredEntries t₂ c).cache := by
  have h1 : CacheInv (RequestCacheM.removeExpiredEntries t₂ c) :=
    removeExpiredEntries_cacheInv t₂ c hInv
  have hsub1 : ∀ k, (mapLookup k
      (RequestCacheM.removeExpiredEntries t₂ c).cache).isSome = true → k ∈ S := by
    intro k hk
    exact hsub k (sweepKeys_lookup_isSome t₂ _ c hk)
  by_cases hhas : mapHas k₂ (RequestCacheM.removeExpiredEntries t₂ c).cache = true
  · rw [set_eq_of_has c k₂ v₂ ttl₂ t₂ hhas]
  · by_cases hlen : (RequestCacheM.removeExpiredEntries t₂ c).cache.length ≥
        (RequestCacheM.removeExpiredEntries t₂ c).maxSize
    · exfalso
      set L : List String :=
        (RequestCacheM.removeExpiredEntries t₂ c).cache.map Prod.fst with hL
      have hnd : L.Nodup := h1.nodup_keys
      have hLS : L.toFinset ⊆ S := by
        intro x hx
        rw [List.mem_toFinset] at hx
        refine hsub1 x ?_
        rw [mapLookup_isSome_iff]
        exact hx
      have hcard : S.card ≤ L.toFinset.card := by
        rw [List.toFinset_card_of_nodup hnd]
        have hlenL : L.length =
            (RequestCacheM.removeExpiredEntries t₂ c).cache.length := by
          rw [hL, List.length_map]
        rw [hlenL]
        have hms : (RequestCacheM.removeExpiredEntries t₂ c).maxSize =
            c.maxSize := removeExpiredEntries_maxSize t₂ c
        omega
      have hEq : L.toFinset = S := Finset.eq_of_subset_of_card_le hLS hcard
      have hk₂L : k₂ ∈ L := by
        rw [← List.mem_toFinset, hEq]
        exact hk₂
      refine hhas ?_
      rw [mapHas, mapLookup_isSome_iff]
      exact hk₂L
    · rw [set_eq_of_not_has_small c k₂ v₂ ttl₂ t₂ hhas hlen]

theorem keyRel_set_step {α : Type} {c : RequestCacheM α} (hInv : CacheInv c)
    (S : Finset String) (hS : S.card ≤ c.maxSize)
    (φ : String → Option (α × Nat × Nat)) (tLast : Nat)
    (hK : ∀ k, KeyRel (φ k) k c tLast)
    (hφS : ∀ k, (φ k).isSome = true → k ∈ S)
    (k₂ : String) (hk₂ : k₂ ∈ S) (v₂ : α) (ttl₂ t₂ : Nat) (ht : tLast ≤ t₂) :
    ∀ k, KeyRel (if k₂ = k then some (v₂, ttl₂, t₂) else φ k) k
      (c.set k₂ v₂ ttl₂ t₂) t₂ := by
  have hsub : ∀ k, (mapLookup k c.cache).isSome = true → k ∈ S := by
    intro k hk
    by_contra hkS
    have hφn : φ k = none := by
      cases hφ : φ k with
      | none => rfl
      | some p => exact absurd (hφS k (by simp [hφ])) hkS
    have hcontra := hK k
    rw [hφn] at hcontra
    unfold KeyRel at hcontra
    rw [hcontra] at hk
    simp at hk
  have hcache := set_no_evict_cache hInv S hS hsub k₂ hk₂ v₂ ttl₂ t₂
  intro k
  by_cases hk : k₂ = k
  · subst hk
    rw [if_pos rfl]
    unfold KeyRel
    refine Or.inl ⟨?_, le_refl _⟩
    rw [hcache]
    exact mapLookup_insert_self _ _ _
  · rw [if_neg hk]
    have hlk : mapLookup k (c.set k₂ v₂ ttl₂ t₂).cache =
        mapLookup k (RequestCacheM.removeExpiredEntries t₂ c).cache := by
      rw [hcache]
      exact mapLookup_insert_ne hk _ _
    have hswp := removeExpiredEntries_lookup t₂ c hInv k
    have hKk := hK k
    unfold KeyRel at hKk ⊢
    cases hφ : φ k with
    | none =>
      rw [hφ] at hKk
      rw [hlk, hswp, hKk]
    | some p =>
      obtain ⟨v, ttl, tw⟩ := p
      rw [hφ] at hKk
      rcases hKk with ⟨h1, h2⟩ | ⟨h1, h2, h3⟩
      · by_cases hexp :
            RequestCacheM.isExpired t₂ (⟨v, tw, ttl⟩ : CacheEntryM α) = true
        · refine Or.inr ⟨?_, le_trans h2 ht, ?_⟩
          · rw [hlk, hswp, h1]
            simp [hexp]
          · unfold RequestCacheM.isExpired at hexp
            simpa using hexp
        · refine Or.inl ⟨?_, le_trans h2 ht⟩
          rw [hlk, hswp, h1]
          simp [hexp]
      · refine Or.inr ⟨?_, le_trans h2 ht, ?_⟩
        · rw [hlk, hswp, h1]
        · have := Nat.sub_le_sub_right ht tw
          omega

theorem keyRel_get_step {α : Type} {c : RequestCacheM α} (hInv : CacheInv c)
    (φ : String → Option (α × Nat × Nat)) (tLast : Nat)
    (hK : ∀ k, KeyRel (φ k) k c tLast)
    (k₂ : String) (t₂ : Nat) (ht : tLast ≤ t₂) :
    ∀ k, KeyRel (φ k) k (c.get k₂ t₂).2 t₂ := by
  intro k
  have hKk := keyRel_mono (φ k) k c tLast t₂ (hK k) ht
  cases hl : mapLookup k₂ c.cache with
  | none =>
    rw [get_eq_of_none c k₂ t₂ hl]
    exact hKk
  | some e =>
    by_cases hexp : RequestCacheM.isExpired t₂ e = true
    · rw [get_eq_of_expired c k₂ t₂ hl hexp]
      by_cases hk : k₂ = k
      · subst hk
        unfold KeyRel at hKk ⊢
        cases hφ : φ k₂ with
        | none =>
          rw [hφ] at hKk
          rw [hKk] at hl
          simp at hl
        | some p =>
          obtain ⟨v, ttl, tw⟩ := p
          rw [hφ] at hKk
          rcases hKk with ⟨h1, h2⟩ | ⟨h1, h2, h3⟩
          · have he : e = ⟨v, tw, ttl⟩ := by
              rw [h1] at hl
              exact (Option.some.inj hl).symm
            subst he
            refine Or.inr ⟨del_lookup_self hInv k₂, h2, ?_⟩
            unfold RequestCacheM.isExpired at hexp
            simpa using hexp
          · rw [h1] at hl
            simp at hl
      · exact keyRel_of_lookup_eq (φ k) k c _ t₂ (del_lookup_ne c hk) hKk
    · rw [get_eq_of_fresh c k₂ t₂ hl hexp]
      exact keyRel_of_lookup_eq (φ k) k c _ t₂ rfl hKk

theorem c7_trace_aux {α : Type} (S : Finset String) (maxSize : Nat)
    (hS : S.card ≤ maxSize) :
    ∀ (ops : List (CacheOp α)) (c : RequestCacheM α)
      (φ : String → Option (α × Nat × Nat)) (tLast : Nat),
      c.maxSize = maxSize → CacheInv c →
      (∀ k, KeyRel (φ k) k c tLast) →
      (∀ k, (φ k).isSome = true → k ∈ S) →
      (∀ op ∈ ops, op.isAccess = true) →
      (∀ op ∈ ops, ∀ k v ttl t, op = CacheOp.set k v ttl t → k ∈ S) →
      (∀ op ∈ ops, tLast ≤ op.timeOf) →
      List.Pairwise (fun a b => CacheOp.timeOf a ≤ CacheOp.timeOf b) ops →
      CacheInv (runOps c ops) ∧
      (∀ k, KeyRel (lastSetFrom k (φ k) ops) k (runOps c ops)
        (endTime tLast ops)) := by
  intro ops
  induction ops with
  | nil =>
    intro c φ tLast _ hInv hK _ _ _ _ _
    exact ⟨hInv, fun k => hK k⟩
  | cons op rest ih =>
    intro c φ tLast hmax hInv hK hφS hacc hSet hT hP
    have hPc := List.pairwise_cons.mp hP
    cases op with
    | set k₂ v₂ ttl₂ t₂ =>
      have hk₂S : k₂ ∈ S := hSet _ (List.mem_cons_self _ _) k₂ v₂ ttl₂ t₂ rfl
      have ht : tLast ≤ t₂ := hT _ (List.mem_cons_self _ _)
      have hK' := keyRel_set_step hInv S (by rw [hmax]; exact hS) φ tLast hK
        hφS k₂ hk₂S v₂ ttl₂ t₂ ht
      have hres := ih (c.set k₂ v₂ ttl₂ t₂)
        (fun k => if k₂ = k then some (v₂, ttl₂, t₂) else φ k) t₂
        (by rw [set_maxSize, hmax]) (cacheInv_set hInv k₂ v₂ ttl₂ t₂) hK'
        (by
          intro k hk
          by_cases h : k₂ = k
          · subst h
            exact hk₂S
          · simp only [if_neg h] at hk
            exact hφS k hk)
        (fun o ho => hacc o (List.mem_cons_of_mem _ ho))
        (fun o ho => hSet o (List.mem_cons_of_mem _ ho))
        (fun o ho => hPc.1 o ho)
        hPc.2
      exact hres
    | get k₂ t₂ =>
      have ht : tLast ≤ t₂ := hT _ (List.mem_cons_self _ _)
      have hK' := keyRel_get_step hInv φ tLast hK k₂ t₂ ht
      have hres := ih (c.get k₂ t₂).2 φ t₂
        (by rw [get_maxSize, hmax]) (cacheInv_get hInv k₂ t₂) hK'
        hφS
        (fun o ho => hacc o (List.mem_cons_of_mem _ ho))
        (fun o ho => hSet o (List.mem_cons_of_mem _ ho))
        (fun o ho => hPc.1 o ho)
        hPc.2
      exact hres
    | clear =>
      have := hacc _ (List.mem_cons_self _ _)
      simp [CacheOp.isAccess] at this
    | invalidate p =>
      have := hacc _ (List.mem_cons_self _ _)
      simp [CacheOp.isAccess] at this

/-- C7: for every sequence of cache `set`/`get` operations within capacity
(the number of distinct keys ever `set` is at most the configured `maxSize`)
at nondecreasing clock readings (the spec's §6 monotonic clock), and every
key: a later `get` returns exactly the value of the last `set` for that key
while `now - t ≤ ttl`; once the TTL has elapsed (`now - t > ttl`) the `get`
returns absent and purges the key, so it no longer counts toward `size()`;
a key never `set` is always absent. -/
theorem c7_ttl_get_semantics (α : Type) (ops : List (CacheOp α))
    (maxSize : Nat) (k : String) (now : Nat)
    (hacc : ∀ op ∈ ops, op.isAccess = true)
    (hsorted : List.Pairwise (fun a b => CacheOp.timeOf a ≤ CacheOp.timeOf b) ops)
    (hcap : (ops.filterMap CacheOp.setKey).toFinset.card ≤ maxSize)
    (hnow : ∀ op ∈ ops, op.timeOf ≤ now) :
    (∀ v ttl t, lastSetFor k ops = some (v, ttl, t) → now - t ≤ ttl →
      ((runOps (RequestCacheM.empty maxSize) ops).get k now).1 = some v)
    ∧ (∀ v ttl t, lastSetFor k ops = some (v, ttl, t) → now - t > ttl →
      ((runOps (RequestCacheM.empty maxSize) ops).get k now).1 = none
      ∧ mapLookup k
          ((runOps (RequestCacheM.empty maxSize) ops).get k now).2.cache = none)
    ∧ (lastSetFor k ops = none →
      ((runOps (RequestCacheM.empty maxSize) ops).get k now).1 = none) := by
  have haux := c7_trace_aux ((ops.filterMap CacheOp.setKey).toFinset) maxSize
    hcap ops (RequestCacheM.empty maxSize) (fun _ => none) 0 rfl
    (cacheInv_empty maxSize)
    (fun k' => by unfold KeyRel; rfl)
    (by intro k' h; simp at h)
    hacc
    (by
      intro op hop k' v' ttl' t' heq
      rw [List.mem_toFinset, List.mem_filterMap]
      exact ⟨op, hop, by rw [heq]; rfl⟩)
    (fun op _ => Nat.zero_le _)
    hsorted
  obtain ⟨hInvC, hKC⟩ := haux
  have hend : endTime 0 ops ≤ now := endTime_le ops 0 now (Nat.zero_le _) hnow
  have hK := keyRel_mono _ k _ _ now (hKC k) hend
  refine ⟨?_, ?_, ?_⟩
  · intro v ttl t hlast hfresh
    unfold KeyRel at hK
    rw [show lastSetFrom k none ops = lastSetFor k ops from rfl, hlast] at hK
    rcases hK with ⟨h1, _⟩ | ⟨_, _, h3⟩
    · rw [get_eq_of_fresh _ k now h1
        (by simp only [RequestCacheM.isExpired, decide_eq_true_eq]; omega)]
    · omega
  · intro v ttl t hlast hexp
    unfold KeyRel at hK
    rw [show lastSetFrom k none ops = lastSetFor k ops from rfl, hlast] at hK
    rcases hK with ⟨h1, _⟩ | ⟨h1, _, _⟩
    · rw [get_eq_of_expired _ k now h1
        (by simp only [RequestCacheM.isExpired, decide_eq_true_eq]; omega)]
      exact ⟨rfl, del_lookup_self hInvC k⟩
    · rw [get_eq_of_none _ k now h1]
      exact ⟨rfl, h1⟩
  · intro hlast
    unfold KeyRel at hK
    rw [show lastSetFrom k none ops = lastSetFor k ops from rfl, hlast] at hK
    rw [get_eq_of_none _ k now hK]

theorem c7_ttl_get_semantics_witness :
    lastSetFor "a" [CacheOp.set "a" (7 : Nat) 10 100] = some (7, 10, 100)
    ∧ ((runOps (RequestCacheM.empty 1)
        [CacheOp.set "a" (7 : Nat) 10 100]).get "a" 105).1 = some 7
    ∧ ((runOps (RequestCacheM.empty 1)
        [CacheOp.set "a" (7 : Nat) 10 100]).get "a" 111).1 = none
    ∧ mapLookup "a" ((runOps (RequestCacheM.empty 1)
        [CacheOp.set "a" (7 : Nat) 10 100]).get "a" 111).2.cache = none
    ∧ ((runOps (RequestCacheM.empty 1)
        [CacheOp.set "a" (7 : Nat) 10 100]).get "b" 105).1 = none := by
  have hacc : ∀ op ∈ [CacheOp.set "a" (7 : Nat) 10 100], op.isAccess = true := by
    intro op hop
    simp only [List.mem_singleton] at hop
    subst hop
    rfl
  have hsorted : List.Pairwise (fun a b => CacheOp.timeOf a ≤ CacheOp.timeOf b)
      [CacheOp.set "a" (7 : Nat) 10 100] := by
    simp
  have h1 := c7_ttl_get_semantics Nat [CacheOp.set "a" (7 : Nat) 10 100] 1 "a"
    105 hacc hsorted (by decide)
    (by
      intro op hop
      simp only [List.mem_singleton] at hop
      subst hop
      show (100 : Nat) ≤ 105
      omega)
  have h2 := c7_ttl_get_semantics Nat [CacheOp.set "a" (7 : Nat) 10 100] 1 "a"
    111 hacc hsorted (by decide)
    (by
      intro op hop
      simp only [List.mem_singleton] at hop
      subst hop
      show (100 : Nat) ≤ 111
      omega)
  have h3 := c7_ttl_get_semantics Nat [CacheOp.set "a" (7 : Nat) 10 100] 1 "b"
    105 hacc hsorted (by decide)
    (by
      intro op hop
      simp only [List.mem_singleton] at hop
      subst hop
      show (100 : Nat) ≤ 105
      omega)
  have h2' := h2.2.1 7 10 100 (by decide) (by omega)
  exact ⟨by decide, h1.1 7 10 100 (by decide) (by omega), h2'.1, h2'.2,
    h3.2.2 (by decide)⟩

end Fetchies
